import Mathlib

/-
Verification of the replacement-directive core of the F2 batch renamer
(`replace` package): the token lexicons, the limited regex replacer, the
per-link match processing, and the replacement-chain orchestrator.

Go strings are modelled as lists of characters; Go's `regexp.Regexp` is
modelled abstractly by the decomposition it induces on an input (literal
gaps interleaved with matches) together with its replacement-template
expansion; fallible Go code returns an explicit outcome (ok / returned
error / panic).
-/

set_option maxRecDepth 4000

/-- Go strings, modelled as lists of characters. -/
abbrev GoStr := List Char

/-- Conversion from Lean string literals for concrete test inputs. -/
def gs (s : String) : GoStr := s.data

/-- Errors produced by the modelled Go code. -/
inductive GoErr where
  | invalidSubmatches
  | indexOutOfRange
  | atoiErr
  | compileErr
  | resolveErr
  | findErr
  deriving DecidableEq, Repr

/-- Outcome of a fallible Go computation: a value, a returned error, or a
panic that unwinds through every caller. -/
inductive GoOutcome (α : Type) where
  | ok (a : α)
  | err (e : GoErr)
  | panicked (e : GoErr)
  deriving DecidableEq, Repr

def GoOutcome.bind {α β : Type} : GoOutcome α → (α → GoOutcome β) → GoOutcome β
  | .ok a, f => f a
  | .err e, _ => .err e
  | .panicked e, _ => .panicked e

instance : Monad GoOutcome where
  pure := GoOutcome.ok
  bind := GoOutcome.bind

@[simp] theorem GoOutcome.bind_ok {α β : Type} (a : α) (f : α → GoOutcome β) :
    GoOutcome.bind (.ok a) f = f a := rfl

@[simp] theorem GoOutcome.bind_err {α β : Type} (e : GoErr) (f : α → GoOutcome β) :
    GoOutcome.bind (.err e) f = .err e := rfl

@[simp] theorem GoOutcome.bind_panicked {α β : Type} (e : GoErr) (f : α → GoOutcome β) :
    GoOutcome.bind (.panicked e) f = .panicked e := rfl

/-- Abstract model of a compiled Go `regexp.Regexp`.  `split` is the
decomposition the pattern induces on an input string: the interleaving of
unmatched literal gaps (`inl`) and matches (`inr`), left to right; joining
the segments must give back the input for an honest instance, but no claim
below needs that globally.  `expand` models `Regexp.expand`: how a
replacement template is instantiated against one concrete match (it is the
identity on templates without `$` references). -/
structure GoRegex where
  split : GoStr → List (GoStr ⊕ GoStr)
  expand : GoStr → GoStr → GoStr

/-- Reassemble a segment decomposition into a string. -/
def joinSegs : List (GoStr ⊕ GoStr) → GoStr
  | [] => []
  | .inl s :: rest => s ++ joinSegs rest
  | .inr m :: rest => m ++ joinSegs rest

/-- Model of `Regexp.FindAllString(input, -1)`: all matches, in order. -/
def GoRegex.findAllString (r : GoRegex) (input : GoStr) : List GoStr :=
  (r.split input).filterMap fun seg =>
    match seg with
    | .inl _ => none
    | .inr m => some m

/-- Model of `Regexp.ReplaceAllString(input, repl)`: every match is replaced
with the expansion of the replacement template against it. -/
def GoRegex.replaceAllString (r : GoRegex) (input repl : GoStr) : GoStr :=
  joinSegs ((r.split input).map fun seg =>
    match seg with
    | .inl s => .inl s
    | .inr m => .inr (r.expand m repl))

/-- Stateful traversal of a segment decomposition: literal gaps are copied,
and each match is passed to `f` together with the current closure state,
exactly as a Go closure with captured mutable state behaves under
`ReplaceAllStringFunc`. -/
def goFuncFold {σ : Type} (f : σ → GoStr → σ × GoStr) : σ → List (GoStr ⊕ GoStr) → GoStr
  | _, [] => []
  | st, .inl s :: rest => s ++ goFuncFold f st rest
  | st, .inr m :: rest => (f st m).2 ++ goFuncFold f (f st m).1 rest

/-- Model of `Regexp.ReplaceAllStringFunc` where the Go callback closes over
mutable state of type `σ`. -/
def GoRegex.replaceAllStringFuncSt {σ : Type} (r : GoRegex) (input : GoStr)
    (f : σ → GoStr → σ × GoStr) (s0 : σ) : GoStr :=
  goFuncFold f s0 (r.split input)

/-- Translated from `regexReplace` (replace package): replaces matched
substrings in the input with the replacement, honouring the signed
replacement limit.  A positive limit counts replacements from the left via
a closure counter that stops at equality with the limit; a negative limit
first counts all matches, then keeps the first `len(matches) + limit`
matches and replaces the rest; limit zero is a plain global replace. -/
def regexReplace (regex : GoRegex) (input replacement : GoStr)
    (replaceLimit : Int) : GoStr :=
  if 0 < replaceLimit then
    regex.replaceAllStringFuncSt input
      (fun counter val =>
        if counter = replaceLimit then (counter, val)
        else (counter + 1, regex.replaceAllString val replacement))
      (0 : Int)
  else if replaceLimit < 0 then
    let ms := regex.findAllString input
    let l : Int := (ms.length : Int) + replaceLimit
    regex.replaceAllStringFuncSt input
      (fun counter val =>
        if l ≤ counter then (counter, regex.replaceAllString val replacement)
        else (counter + 1, val))
      (0 : Int)
  else regex.replaceAllString input replacement

/-- Occurrence-indexed replacement over a segment decomposition: the match
with 0-based occurrence index `i` (counting from `n` at the head) is
rewritten with `g` exactly when `P i` holds.  This is the reference
function the limit semantics are stated against. -/
def applyAtMatches (P : Nat → Bool) (g : GoStr → GoStr) : Nat → List (GoStr ⊕ GoStr) → GoStr
  | _, [] => []
  | n, .inl s :: rest => s ++ applyAtMatches P g n rest
  | n, .inr m :: rest => (if P n then g m else m) ++ applyAtMatches P g (n + 1) rest

/-- Which 0-based match occurrence indices `regexReplace` should rewrite,
per the specified sign-of-limit semantics. -/
def shouldReplaceAt (limit total : Int) (i : Nat) : Bool :=
  if 0 < limit then decide ((i : Int) < limit)
  else if limit < 0 then decide (total + limit ≤ (i : Int))
  else true

/-- A concrete compiled regex: the single-character literal pattern `c`. -/
def splitLit (c : Char) : GoStr → List (GoStr ⊕ GoStr)
  | [] => []
  | x :: xs =>
    if x = c then .inr [c] :: splitLit c xs
    else
      match splitLit c xs with
      | .inl g :: rest => .inl (x :: g) :: rest
      | rest => .inl [x] :: rest

/-- The compiled form of the literal single-character pattern `c`, whose
replacement templates are expanded literally. -/
def litRegex (c : Char) : GoRegex where
  split := splitLit c
  expand := fun _ repl => repl

theorem applyAtMatches_shift (P : Nat → Bool) (g : GoStr → GoStr)
    (segs : List (GoStr ⊕ GoStr)) :
    ∀ n : Nat, applyAtMatches P g (n + 1) segs =
      applyAtMatches (fun i => P (i + 1)) g n segs := by
  induction segs with
  | nil => intro n; rfl
  | cons seg rest ih =>
    intro n
    cases seg with
    | inl s => simp [applyAtMatches, ih n]
    | inr m => simp [applyAtMatches, ih (n + 1)]

theorem applyAtMatches_congr (P Q : Nat → Bool) (g : GoStr → GoStr)
    (h : ∀ i, P i = Q i) (segs : List (GoStr ⊕ GoStr)) :
    ∀ n, applyAtMatches P g n segs = applyAtMatches Q g n segs := by
  have hPQ : P = Q := funext h
  intro n; rw [hPQ]

theorem goFuncFold_pos (r : GoRegex) (repl : GoStr) (limit : Int)
    (segs : List (GoStr ⊕ GoStr)) :
    ∀ c : Int, c ≤ limit →
      goFuncFold
        (fun counter val =>
          if counter = limit then (counter, val)
          else (counter + 1, r.replaceAllString val repl)) c segs =
      applyAtMatches (fun i => decide (c + (i : Int) < limit))
        (fun m => r.replaceAllString m repl) 0 segs := by
  induction segs with
  | nil => intro c _; rfl
  | cons seg rest ih =>
    intro c hc
    cases seg with
    | inl s =>
      simp only [goFuncFold, applyAtMatches]
      rw [ih c hc]
    | inr m =>
      simp only [goFuncFold, applyAtMatches]
      by_cases hceq : c = limit
      · subst hceq
        rw [if_pos rfl]
        rw [decide_eq_false (by omega : ¬(c + ((0 : Nat) : Int) < c))]
        simp only [Bool.false_eq_true, if_false]
        rw [applyAtMatches_shift, ih c hc]
        refine congrArg (m ++ ·) ?_
        refine applyAtMatches_congr _ _ _ (fun i => ?_) rest 0
        rw [decide_eq_false (by omega : ¬(c + (i : Int) < c)),
          decide_eq_false (by omega : ¬(c + ((i + 1 : Nat) : Int) < c))]
      · have hlt : c < limit := lt_of_le_of_ne hc hceq
        rw [if_neg hceq]
        rw [decide_eq_true (by omega : c + ((0 : Nat) : Int) < limit)]
        simp only [if_true]
        rw [applyAtMatches_shift, ih (c + 1) (by omega)]
        refine congrArg (r.replaceAllString m repl ++ ·) ?_
        refine applyAtMatches_congr _ _ _ (fun i => ?_) rest 0
        have : c + 1 + (i : Int) = c + ((i + 1 : Nat) : Int) := by push_cast; ring
        rw [this]

theorem goFuncFold_neg (r : GoRegex) (repl : GoStr) (l : Int)
    (segs : List (GoStr ⊕ GoStr)) :
    ∀ c : Int,
      goFuncFold
        (fun counter val =>
          if l ≤ counter then (counter, r.replaceAllString val repl)
          else (counter + 1, val)) c segs =
      applyAtMatches (fun i => decide (l ≤ c + (i : Int)))
        (fun m => r.replaceAllString m repl) 0 segs := by
  induction segs with
  | nil => intro c; rfl
  | cons seg rest ih =>
    intro c
    cases seg with
    | inl s =>
      simp only [goFuncFold, applyAtMatches]
      rw [ih c]
    | inr m =>
      simp only [goFuncFold, applyAtMatches]
      by_cases hl : l ≤ c
      · rw [if_pos hl]
        rw [decide_eq_true (by omega : l ≤ c + ((0 : Nat) : Int))]
        simp only [if_true]
        rw [applyAtMatches_shift, ih c]
        refine congrArg (r.replaceAllString m repl ++ ·) ?_
        refine applyAtMatches_congr _ _ _ (fun i => ?_) rest 0
        rw [decide_eq_true (by omega : l ≤ c + (i : Int)),
          decide_eq_true (by omega : l ≤ c + ((i + 1 : Nat) : Int))]
      · rw [if_neg hl]
        rw [decide_eq_false (by omega : ¬(l ≤ c + ((0 : Nat) : Int)))]
        simp only [Bool.false_eq_true, if_false]
        rw [applyAtMatches_shift, ih (c + 1)]
        refine congrArg (m ++ ·) ?_
        refine applyAtMatches_congr _ _ _ (fun i => ?_) rest 0
        have : c + 1 + (i : Int) = c + ((i + 1 : Nat) : Int) := by push_cast; ring
        rw [this]

theorem joinSegs_map_eq_apply (r : GoRegex) (repl : GoStr)
    (segs : List (GoStr ⊕ GoStr)) :
    ∀ n, joinSegs (segs.map fun seg =>
        match seg with
        | .inl s => Sum.inl s
        | .inr m => Sum.inr (r.expand m repl)) =
      applyAtMatches (fun _ => true) (fun m => r.expand m repl) n segs := by
  induction segs with
  | nil => intro n; rfl
  | cons seg rest ih =>
    intro n
    cases seg with
    | inl s => simp only [List.map, joinSegs, applyAtMatches, ih n]
    | inr m => simp only [List.map, joinSegs, applyAtMatches, if_true, ih (n + 1)]

/-- Claim C1: for every compiled search regex, input, replacement and signed
limit, `regexReplace` obeys the sign-of-limit semantics — limit 0 replaces
every match; a positive limit replaces exactly the first `limit` matches in
left-to-right order and leaves later matches unmodified; a negative limit
replaces exactly the matches whose 0-based occurrence index is at least
`total + limit` (all of them when `|limit| ≥ total`).  In particular the
literal pattern `X` over `"aXaXaXa"` with replacement `"-"` yields
`"a-aXaXa"` at limit 1, `"aXaXa-a"` at limit -1 and `"a-a-a-a"` at limit 0. -/
theorem regexReplace_limit_semantics (r : GoRegex) (input repl : GoStr) (limit : Int) :
    (limit ≠ 0 →
      regexReplace r input repl limit =
        applyAtMatches
          (shouldReplaceAt limit (((r.findAllString input).length : Int)))
          (fun m => r.replaceAllString m repl) 0 (r.split input)) ∧
    (regexReplace r input repl 0 =
      applyAtMatches (fun _ => true) (fun m => r.expand m repl) 0 (r.split input)) ∧
    regexReplace (litRegex 'X') (gs "aXaXaXa") (gs "-") 1 = gs "a-aXaXa" ∧
    regexReplace (litRegex 'X') (gs "aXaXaXa") (gs "-") (-1) = gs "aXaXa-a" ∧
    regexReplace (litRegex 'X') (gs "aXaXaXa") (gs "-") 0 = gs "a-a-a-a" := by
  refine ⟨?_, ?_, by decide, by decide, by decide⟩
  · intro hne
    rcases lt_trichotomy limit 0 with hneg | hzero | hpos
    · have hnp : ¬0 < limit := by omega
      simp only [regexReplace, if_neg hnp, if_pos hneg, GoRegex.replaceAllStringFuncSt]
      rw [goFuncFold_neg r repl _ (r.split input) 0]
      refine applyAtMatches_congr _ _ _ (fun i => ?_) (r.split input) 0
      simp only [shouldReplaceAt, if_neg hnp, if_pos hneg]
      have : ((r.findAllString input).length : Int) + limit + (0 : Int) + (i : Int) =
          ((r.findAllString input).length : Int) + limit + (i : Int) := by ring
      rw [show (0 : Int) + (i : Int) = (i : Int) from by ring]
    · exact absurd hzero hne
    · simp only [regexReplace, if_pos hpos, GoRegex.replaceAllStringFuncSt]
      rw [goFuncFold_pos r repl limit (r.split input) 0 (by omega)]
      refine applyAtMatches_congr _ _ _ (fun i => ?_) (r.split input) 0
      simp only [shouldReplaceAt, if_pos hpos]
      rw [show (0 : Int) + (i : Int) = (i : Int) from by ring]
  · simp only [regexReplace, lt_irrefl, if_false, GoRegex.replaceAllString]
    exact joinSegs_map_eq_apply r repl (r.split input) 0

/-- Witness for claim C1 at a concrete input: limit 1 over the literal
pattern `X`, with every hypothesis discharged by evaluation. -/
theorem regexReplace_limit_semantics_witness :
    regexReplace (litRegex 'X') (gs "aXaXaXa") (gs "-") 1 =
      applyAtMatches
        (shouldReplaceAt 1 ((((litRegex 'X').findAllString (gs "aXaXaXa")).length : Int)))
        (fun m => (litRegex 'X').replaceAllString m (gs "-")) 0
        ((litRegex 'X').split (gs "aXaXaXa")) :=
  (regexReplace_limit_semantics (litRegex 'X') (gs "aXaXaXa") (gs "-") 1).1 (by decide)

/-- Whitespace as recognised by Go's `unicode.IsSpace` on the code points
relevant here (ASCII whitespace plus NEL and NBSP; the wider Unicode space
table is outside the scope of the claims). -/
def goIsSpace (c : Char) : Bool :=
  c = ' ' ∨ c = Char.ofNat 9 ∨ c = Char.ofNat 10 ∨ c = Char.ofNat 11 ∨
    c = Char.ofNat 12 ∨ c = Char.ofNat 13 ∨ c = Char.ofNat 133 ∨ c = Char.ofNat 160

/-- Model of Go `strings.TrimSpace`: drop leading and trailing whitespace. -/
def trimSpace (s : GoStr) : GoStr :=
  ((s.dropWhile goIsSpace).reverse.dropWhile goIsSpace).reverse

/-- Split a string on a separator character; the result always has one more
component than the number of separators (Go `strings.Split` semantics). -/
def splitOnChar (c : Char) : GoStr → List GoStr
  | [] => [[]]
  | x :: xs =>
    if x = c then [] :: splitOnChar c xs
    else
      match splitOnChar c xs with
      | g :: rest => (x :: g) :: rest
      | [] => [[x]]

/-- Join path components with `/` separators. -/
def joinComps : List GoStr → GoStr
  | [] => []
  | [x] => x
  | x :: rest => x ++ '/' :: joinComps rest

/-- One step of Go `path.Clean`'s element processing: skip empty and `.`
elements, let `..` pop the previous element unless there is nothing left to
pop (in which case it is swallowed when the path is rooted and kept
otherwise), and append every normal element. -/
def cleanStep (rooted : Bool) (acc : List GoStr) (comp : GoStr) : List GoStr :=
  if comp = [] ∨ comp = ['.'] then acc
  else if comp = ['.', '.'] then
    if acc ≠ [] ∧ acc.getLast? ≠ some ['.', '.'] then acc.dropLast
    else if rooted then acc
    else acc ++ [comp]
  else acc ++ [comp]

/-- Model of Go `filepath.Clean` for slash-separated paths: lexical
normalisation by element processing, returning `.` for an empty result and
preserving rootedness. -/
def goClean (p : GoStr) : GoStr :=
  if p = [] then ['.']
  else
    let rooted := p.head? = some '/'
    let comps := splitOnChar '/' p
    let out := comps.foldl (cleanStep rooted) []
    if out = [] then (if rooted then ['/'] else ['.'])
    else (if rooted then ['/'] else []) ++ joinComps out

/-- Model of Go `filepath.Ext`: the suffix of the final path element that
starts at its last dot, or empty if the final element has no dot. -/
def goExtRev : GoStr → GoStr → Option GoStr
  | [], _ => none
  | c :: rest, acc =>
    if c = '/' then none
    else if c = '.' then some (c :: acc)
    else goExtRev rest (c :: acc)

/-- Model of Go `filepath.Ext` on a forward string. -/
def goExt (p : GoStr) : GoStr :=
  match goExtRev p.reverse [] with
  | some e => e
  | none => []

/-- Modelled from the spec: `pathutil.StripExtension` (not among the
excerpted sources) strips the extension from a name before the regex
replacement runs; it removes exactly the `filepath.Ext` suffix. -/
def stripExtension (p : GoStr) : GoStr :=
  p.take (p.length - (goExt p).length)

/-- Model of Go `filepath.Join` on two elements: empty elements are
dropped, the rest are joined with `/` and the result is cleaned; the join
of two empty elements is empty. -/
def goJoin (a b : GoStr) : GoStr :=
  if a = [] ∧ b = [] then []
  else if a = [] then goClean b
  else goClean (a ++ '/' :: b)

/-- Status of a file change (from the external status package; only the
values the core assigns are modelled). -/
inductive ChangeStatus where
  | ok
  | pending
  deriving DecidableEq, Repr

/-- One file or directory of the batch (`file.Change`, external to the
excerpted core); only the fields the core reads or writes are modelled. -/
structure FileChange where
  source : GoStr
  target : GoStr := []
  baseDir : GoStr := []
  relTargetPath : GoStr := []
  isDir : Bool := false
  status : ChangeStatus := .pending
  index : Nat := 0
  deriving DecidableEq, Repr

/-- The kinds of variable token, used to key the abstract providers. -/
inductive VarKind where
  | filename
  | ext
  | parentDir
  | exif
  | index
  | id3
  | hash
  | date
  | exiftool
  | transform
  | csv
  deriving DecidableEq, Repr

/-- Modelled from the spec: each token lexicon applies one fixed package-level
regex (`csvVarRegex`, `indexVarRegex`, …) whose pattern text is outside the
excerpted sources; a lexicon regex is abstracted to its match test and its
`FindAllStringSubmatch(·, -1)` behaviour. -/
structure LexRegex where
  matchString : GoStr → Bool
  findAllSubmatch : GoStr → List (List GoStr)

/-- Modelled from the spec: the external collaborators of the core — the
eleven lexicon regexes, `regexp.Compile`, the hierarchical reorder primitive
`sortfiles.EnforceHierarchicalOrder`, and the per-token value providers used
by the Variable Substituter. -/
structure World where
  csvVarRegex : LexRegex
  dateVarRegex : LexRegex
  hashVarRegex : LexRegex
  transformVarRegex : LexRegex
  exifVarRegex : LexRegex
  indexVarRegex : LexRegex
  exiftoolVarRegex : LexRegex
  id3VarRegex : LexRegex
  extensionVarRegex : LexRegex
  parentDirVarRegex : LexRegex
  filenameVarRegex : LexRegex
  compile : GoStr → GoOutcome GoRegex
  enforceHierarchicalOrder : List FileChange → List FileChange
  resolveVar : VarKind → GoRegex → FileChange → GoOutcome GoStr

/-- Go slice indexing: out-of-range access panics. -/
def idx (l : List GoStr) (i : Nat) : GoOutcome GoStr :=
  match l.get? i with
  | some v => .ok v
  | none => .panicked .indexOutOfRange

/-- Decimal digit test for `strconv.Atoi`. -/
def isDigitCh (c : Char) : Bool := '0' ≤ c ∧ c ≤ '9'

def digitsValAux : GoStr → Nat → Option Nat
  | [], acc => some acc
  | c :: rest, acc =>
    if isDigitCh c then digitsValAux rest (acc * 10 + (c.toNat - 48)) else none

/-- Value of a nonempty all-digit string, `none` otherwise. -/
def digitsVal (s : GoStr) : Option Nat :=
  if s = [] then none else digitsValAux s 0

/-- Model of Go `strconv.Atoi`: optional sign followed by at least one
decimal digit; anything else is a syntax error.  The 64-bit range error is
outside the scope of the claims. -/
def goAtoi (s : GoStr) : GoOutcome Int :=
  match s with
  | '-' :: rest =>
    match digitsVal rest with
    | some n => .ok (-(n : Int))
    | none => .err .atoiErr
  | '+' :: rest =>
    match digitsVal rest with
    | some n => .ok (n : Int)
    | none => .err .atoiErr
  | _ =>
    match digitsVal s with
    | some n => .ok (n : Int)
    | none => .err .atoiErr

structure csvVarMatch where
  regex : GoRegex
  column : Int
  transformToken : GoStr

structure csvVars where
  submatches : List (List GoStr) := []
  values : List csvVarMatch := []

structure dateVarMatch where
  regex : GoRegex
  val : List GoStr
  attr : GoStr
  token : GoStr
  transformToken : GoStr

structure dateVars where
  matchList : List dateVarMatch := []

structure hashVarMatch where
  regex : GoRegex
  val : List GoStr
  hashFn : GoStr
  transformToken : GoStr

structure hashVars where
  matchList : List hashVarMatch := []

structure transformVarMatch where
  regex : GoRegex
  val : List GoStr
  captureVar : GoStr
  inputStr : GoStr
  token : GoStr
  timeStr : GoStr

structure transformVars where
  matchList : List transformVarMatch := []

structure exifVarMatch where
  regex : GoRegex
  val : List GoStr
  attr : GoStr
  timeStr : GoStr
  transformToken : GoStr

structure exifVars where
  matchList : List exifVarMatch := []

/-- The anonymous step struct of `indexVarMatch`. -/
structure stepVal where
  isSet : Bool := false
  value : Int := 0

structure numbersToSkip where
  max : Int
  min : Int

structure indexVarMatch where
  regex : GoRegex
  submatch : List GoStr
  startNumber : Int := 1
  indexFormat : GoStr := []
  numberSystem : GoStr := []
  step : stepVal := {}
  skip : List numbersToSkip := []

structure indexVars where
  capturVarIndex : List Nat := []
  offset : List Int := []
  matchList : List indexVarMatch := []

structure exiftoolVarMatch where
  regex : GoRegex
  attr : GoStr
  val : List GoStr
  transformToken : GoStr

structure exiftoolVars where
  matchList : List exiftoolVarMatch := []

structure id3VarMatch where
  regex : GoRegex
  tag : GoStr
  transformToken : GoStr
  val : List GoStr

structure id3Vars where
  matchList : List id3VarMatch := []

structure extVarMatch where
  regex : GoRegex
  transformToken : GoStr

structure extVars where
  matchList : List extVarMatch := []

structure parentDirVarMatch where
  regex : GoRegex
  parent : Int := 1
  transformToken : GoStr

structure parentDirVars where
  matchList : List parentDirVarMatch := []

structure filenameVarMatch where
  regex : GoRegex
  transformToken : GoStr

structure filenameVars where
  matchList : List filenameVarMatch := []

/-- All the variables present in a replacement template (the source's
`variables` struct; renamed because `variables` collides with a Lean
command). -/
structure Variables where
  filename : filenameVars := {}
  ext : extVars := {}
  parentDir : parentDirVars := {}
  exif : exifVars := {}
  index : indexVars := {}
  id3 : id3Vars := {}
  hash : hashVars := {}
  date : dateVars := {}
  exiftool : exiftoolVars := {}
  transform : transformVars := {}
  csv : csvVars := {}

/-- Loop body of `getCSVVars` over the submatch list.  (In every `…Vars`
structure the source's `matches` field is spelled `matchList`, because
`matches` is reserved in Lean.) -/
def csvVarsLoop (w : World) : List (List GoStr) → GoOutcome (List csvVarMatch)
  | [] => .ok []
  | submatch :: rest =>
    if submatch.length < 3 then .err .invalidSubmatches
    else do
      let m0 ← idx submatch 0
      let regex ← w.compile m0
      let m1 ← idx submatch 1
      let n ← goAtoi m1
      let m2 ← idx submatch 2
      let vs ← csvVarsLoop w rest
      return { regex := regex, column := n, transformToken := m2 } :: vs

/-- Translated from `getCSVVars`: retrieves all the csv variables in the
replacement string, failing with `invalidSubmatches` on a submatch shorter
than the expected length 3. -/
def getCSVVars (w : World) (replacementInput : GoStr) : GoOutcome csvVars := do
  if w.csvVarRegex.matchString replacementInput then
    let submatches := w.csvVarRegex.findAllSubmatch replacementInput
    let values ← csvVarsLoop w submatches
    return { submatches := submatches, values := values }
  else
    return {}

/-- Loop body of `getDateVars` (expected length 4). -/
def dateVarsLoop (w : World) : List (List GoStr) → GoOutcome (List dateVarMatch)
  | [] => .ok []
  | submatch :: rest =>
    if submatch.length < 4 then .err .invalidSubmatches
    else do
      let m0 ← idx submatch 0
      let regex ← w.compile m0
      let m1 ← idx submatch 1
      let m2 ← idx submatch 2
      let m3 ← idx submatch 3
      let vs ← dateVarsLoop w rest
      return { regex := regex, val := submatch, attr := m1, token := m2,
               transformToken := m3 } :: vs

/-- Translated from `getDateVars`. -/
def getDateVars (w : World) (replacementInput : GoStr) : GoOutcome dateVars := do
  if ¬ w.dateVarRegex.matchString replacementInput then
    return {}
  else
    let submatches := w.dateVarRegex.findAllSubmatch replacementInput
    let ms ← dateVarsLoop w submatches
    return { matchList := ms }

/-- Loop body of `getHashVars` (expected length 3). -/
def hashVarsLoop (w : World) : List (List GoStr) → GoOutcome (List hashVarMatch)
  | [] => .ok []
  | submatch :: rest =>
    if submatch.length < 3 then .err .invalidSubmatches
    else do
      let m0 ← idx submatch 0
      let regex ← w.compile m0
      let m1 ← idx submatch 1
      let m2 ← idx submatch 2
      let vs ← hashVarsLoop w rest
      return { regex := regex, val := submatch, hashFn := m1,
               transformToken := m2 } :: vs

/-- Translated from `getHashVars`. -/
def getHashVars (w : World) (replacementInput : GoStr) : GoOutcome hashVars := do
  if ¬ w.hashVarRegex.matchString replacementInput then
    return {}
  else
    let submatches := w.hashVarRegex.findAllSubmatch replacementInput
    let ms ← hashVarsLoop w submatches
    return { matchList := ms }

/-- Loop body of `getTransformVars` (expected length 5). -/
def transformVarsLoop (w : World) : List (List GoStr) → GoOutcome (List transformVarMatch)
  | [] => .ok []
  | submatch :: rest =>
    if submatch.length < 5 then .err .invalidSubmatches
    else do
      let m0 ← idx submatch 0
      let regex ← w.compile m0
      let m1 ← idx submatch 1
      let m2 ← idx submatch 2
      let m3 ← idx submatch 3
      let m4 ← idx submatch 4
      let vs ← transformVarsLoop w rest
      return { regex := regex, val := submatch, captureVar := m1,
               inputStr := m2, token := m3, timeStr := m4 } :: vs

/-- Translated from `getTransformVars`. -/
def getTransformVars (w : World) (replacementInput : GoStr) : GoOutcome transformVars := do
  if ¬ w.transformVarRegex.matchString replacementInput then
    return {}
  else
    let submatches := w.transformVarRegex.findAllSubmatch replacementInput
    let ms ← transformVarsLoop w submatches
    return { matchList := ms }

/-- Loop body of `getExifVars` (expected length 4; note that the source then
reads `submatch[4]` for the transform token, which Go panics on when the
submatch has exactly 4 entries — `idx` models that). -/
def exifVarsLoop (w : World) : List (List GoStr) → GoOutcome (List exifVarMatch)
  | [] => .ok []
  | submatch :: rest =>
    if submatch.length < 4 then .err .invalidSubmatches
    else do
      let m0 ← idx submatch 0
      let regex ← w.compile m0
      let m1 ← idx submatch 1
      let m2 ← idx submatch 2
      let attr := if m2 ≠ [] then m2 else m1
      let m3 ← idx submatch 3
      let m4 ← idx submatch 4
      let vs ← exifVarsLoop w rest
      return { regex := regex, val := submatch, attr := attr, timeStr := m3,
               transformToken := m4 } :: vs

/-- Translated from `getExifVars`. -/
def getExifVars (w : World) (replacementInput : GoStr) : GoOutcome exifVars := do
  if ¬ w.exifVarRegex.matchString replacementInput then
    return {}
  else
    let submatches := w.exifVarRegex.findAllSubmatch replacementInput
    let ms ← exifVarsLoop w submatches
    return { matchList := ms }

/-- Translated from the skip-number parsing loop inside `getIndexingVars`
(lines handling `submatch[7]`): each `;`-separated entry is either a single
number, stored as the degenerate range, or a `-`-separated pair stored with
the larger bound as `max` and the smaller as `min`. -/
def skipRangesLoop : List GoStr → GoOutcome (List numbersToSkip)
  | [] => .ok []
  | val :: rest =>
    if val.contains '-' then do
      let numRange := splitOnChar '-' val
      let r0 ← idx numRange 0
      let startNum ← goAtoi r0
      let r1 ← idx numRange 1
      let endNum ← goAtoi r1
      let others ← skipRangesLoop rest
      return { max := max startNum endNum, min := min startNum endNum } :: others
    else do
      let num ← goAtoi val
      let others ← skipRangesLoop rest
      return { max := num, min := num } :: others

/-- The skip specifier of an index token (`submatch[7]`): empty means no
skip ranges, otherwise the `;`-separated entries are parsed. -/
def parseSkipRanges (skipNumbers : GoStr) : GoOutcome (List numbersToSkip) :=
  if skipNumbers ≠ [] then skipRangesLoop (splitOnChar ';' skipNumbers)
  else .ok []

/-- Loop body of `getIndexingVars` (expected length 8): builds the capture
variable index list and the index matches.  A short submatch PANICS
(`panic(errInvalidSubmatches)` in the source) instead of returning the
error. -/
def indexVarsLoop (w : World) : List (List GoStr) → Nat → GoOutcome (List Nat × List indexVarMatch)
  | [], _ => .ok ([], [])
  | submatch :: rest, i =>
    if submatch.length < 8 then .panicked .invalidSubmatches
    else do
      let m0 ← idx submatch 0
      let regex ← w.compile m0
      let m1 ← idx submatch 1
      let m2 ← idx submatch 2
      let m3 ← idx submatch 3
      let m5 ← idx submatch 5
      let startNumber ← if m2 ≠ [] then goAtoi m2 else pure 1
      let m6 ← idx submatch 6
      let step ← if m6 ≠ [] then do
          let v ← goAtoi m6
          pure ({ isSet := true, value := v } : stepVal)
        else pure ({} : stepVal)
      let m7 ← idx submatch 7
      let skip ← parseSkipRanges m7
      let (cvi, ms) ← indexVarsLoop w rest (i + 1)
      let cvi := if m1 ≠ [] then i :: cvi else cvi
      return (cvi, { regex := regex, submatch := submatch,
                     startNumber := startNumber, indexFormat := m3,
                     numberSystem := m5, step := step, skip := skip } :: ms)

/-- Translated from `getIndexingVars`: retrieves all the index variables in
the replacement string; an empty submatch list yields the empty result, and
one offset of 0 is allocated per match. -/
def getIndexingVars (w : World) (replacementInput : GoStr) : GoOutcome indexVars := do
  let submatches := w.indexVarRegex.findAllSubmatch replacementInput
  if submatches = [] then
    return {}
  else
    let (cvi, ms) ← indexVarsLoop w submatches 0
    return { capturVarIndex := cvi, matchList := ms,
             offset := List.replicate ms.length 0 }

/-- Loop body of `getExifToolVars` (expected length 3). -/
def exiftoolVarsLoop (w : World) : List (List GoStr) → GoOutcome (List exiftoolVarMatch)
  | [] => .ok []
  | submatch :: rest =>
    if submatch.length < 3 then .err .invalidSubmatches
    else do
      let m0 ← idx submatch 0
      let regex ← w.compile m0
      let m1 ← idx submatch 1
      let m2 ← idx submatch 2
      let vs ← exiftoolVarsLoop w rest
      return { regex := regex, attr := m1, val := submatch,
               transformToken := m2 } :: vs

/-- Translated from `getExifToolVars`. -/
def getExifToolVars (w : World) (replacementInput : GoStr) : GoOutcome exiftoolVars := do
  if ¬ w.exiftoolVarRegex.matchString replacementInput then
    return {}
  else
    let submatches := w.exiftoolVarRegex.findAllSubmatch replacementInput
    let ms ← exiftoolVarsLoop w submatches
    return { matchList := ms }

/-- Loop body of `getID3Vars` (expected length 2; the source then reads
`submatch[2]`, which Go panics on when the submatch has exactly 2 entries —
`idx` models that). -/
def id3VarsLoop (w : World) : List (List GoStr) → GoOutcome (List id3VarMatch)
  | [] => .ok []
  | submatch :: rest =>
    if submatch.length < 2 then .err .invalidSubmatches
    else do
      let m0 ← idx submatch 0
      let regex ← w.compile m0
      let m1 ← idx submatch 1
      let m2 ← idx submatch 2
      let vs ← id3VarsLoop w rest
      return { regex := regex, tag := m1, transformToken := m2,
               val := submatch } :: vs

/-- Translated from `getID3Vars`. -/
def getID3Vars (w : World) (replacementInput : GoStr) : GoOutcome id3Vars := do
  if ¬ w.id3VarRegex.matchString replacementInput then
    return {}
  else
    let submatches := w.id3VarRegex.findAllSubmatch replacementInput
    let ms ← id3VarsLoop w submatches
    return { matchList := ms }

/-- Loop body of `getExtVars` (expected length 2). -/
def extVarsLoop (w : World) : List (List GoStr) → GoOutcome (List extVarMatch)
  | [] => .ok []
  | submatch :: rest =>
    if submatch.length < 2 then .err .invalidSubmatches
    else do
      let m0 ← idx submatch 0
      let regex ← w.compile m0
      let m1 ← idx submatch 1
      let vs ← extVarsLoop w rest
      return { regex := regex, transformToken := m1 } :: vs

/-- Translated from `getExtVars`. -/
def getExtVars (w : World) (replacementInput : GoStr) : GoOutcome extVars := do
  if ¬ w.extensionVarRegex.matchString replacementInput then
    return {}
  else
    let submatches := w.extensionVarRegex.findAllSubmatch replacementInput
    let ms ← extVarsLoop w submatches
    return { matchList := ms }

/-- Loop body of `getParentDirVars` (expected length 3). -/
def parentDirVarsLoop (w : World) : List (List GoStr) → GoOutcome (List parentDirVarMatch)
  | [] => .ok []
  | submatch :: rest =>
    if submatch.length < 3 then .err .invalidSubmatches
    else do
      let m0 ← idx submatch 0
      let regex ← w.compile m0
      let m1 ← idx submatch 1
      let parent ← if m1 ≠ [] then goAtoi m1 else pure 1
      let m2 ← idx submatch 2
      let vs ← parentDirVarsLoop w rest
      return { regex := regex, parent := parent, transformToken := m2 } :: vs

/-- Translated from `getParentDirVars`. -/
def getParentDirVars (w : World) (replacementInput : GoStr) : GoOutcome parentDirVars := do
  if ¬ w.parentDirVarRegex.matchString replacementInput then
    return {}
  else
    let submatches := w.parentDirVarRegex.findAllSubmatch replacementInput
    let ms ← parentDirVarsLoop w submatches
    return { matchList := ms }

/-- Loop body of `getFilenameVars` (expected length 2). -/
def filenameVarsLoop (w : World) : List (List GoStr) → GoOutcome (List filenameVarMatch)
  | [] => .ok []
  | submatch :: rest =>
    if submatch.length < 2 then .err .invalidSubmatches
    else do
      let m0 ← idx submatch 0
      let regex ← w.compile m0
      let m1 ← idx submatch 1
      let vs ← filenameVarsLoop w rest
      return { regex := regex, transformToken := m1 } :: vs

/-- Translated from `getFilenameVars`. -/
def getFilenameVars (w : World) (replacementInput : GoStr) : GoOutcome filenameVars := do
  if ¬ w.filenameVarRegex.matchString replacementInput then
    return {}
  else
    let submatches := w.filenameVarRegex.findAllSubmatch replacementInput
    let ms ← filenameVarsLoop w submatches
    return { matchList := ms }

/-- Translated from `extractVariables`: retrieves all the variables present
in the replacement string, in the source's extraction order, propagating the
first failure. -/
def extractVariables (w : World) (replacement : GoStr) : GoOutcome Variables := do
  let filename ← getFilenameVars w replacement
  let ext ← getExtVars w replacement
  let parentDir ← getParentDirVars w replacement
  let exif ← getExifVars w replacement
  let index ← getIndexingVars w replacement
  let id3 ← getID3Vars w replacement
  let hash ← getHashVars w replacement
  let date ← getDateVars w replacement
  let exiftool ← getExifToolVars w replacement
  let transform ← getTransformVars w replacement
  let csv ← getCSVVars w replacement
  return { filename := filename, ext := ext, parentDir := parentDir,
           exif := exif, index := index, id3 := id3, hash := hash,
           date := date, exiftool := exiftool, transform := transform,
           csv := csv }

/-- The configuration fields the core reads (`config.Config` is external to
the excerpted sources).  `findStringRegex i` is modelled from the spec: it
stands for `conf.SetFindStringRegex(i)`, compiling the find-argument of
chain link `i` into the search regex (each link may carry its own search
pattern); it fails when that pattern does not compile. -/
structure Config where
  searchRegex : GoRegex
  replacement : GoStr
  replaceLimit : Int
  ignoreExt : Bool
  replacementSlice : List GoStr
  findStringRegex : Nat → GoOutcome GoRegex

/-- Translated from `replaceString`: replaces all matches in the filename
with the replacement string, under the configured limit. -/
def replaceString (conf : Config) (originalName : GoStr) : GoStr :=
  regexReplace conf.searchRegex originalName conf.replacement conf.replaceLimit

/-- Substitute one token: resolve its value through the provider for its
kind and replace every occurrence the token's compiled pattern re-locates
in the working name with that value. -/
def substOne (w : World) (k : VarKind) (rgx : GoRegex) (change : FileChange)
    (t : GoStr) : GoOutcome GoStr := do
  let v ← w.resolveVar k rgx change
  return rgx.replaceAllString t v

/-- Substitute every token of one kind, in extraction order. -/
def substKind (w : World) (k : VarKind) (change : FileChange) :
    List GoRegex → GoStr → GoOutcome GoStr
  | [], t => .ok t
  | rgx :: rest, t => do
    let t ← substOne w k rgx change t
    substKind w k change rest t

/-- Modelled from the spec: `replaceVariables` (the Variable Substituter,
not among the excerpted sources) resolves every extracted token through the
provider for its kind and replaces each occurrence of the token in the
working name (the change's current target) with the resolved value, kind by
kind in the extraction order; any provider failure aborts.  The index
engine's internal arithmetic is abstracted into the index provider (which
may consult the change, including its batch position); the extracted
variable state is carried through unchanged. -/
def replaceVariables (w : World) (_conf : Config) (change : FileChange)
    (vars : Variables) : GoOutcome (GoStr × Variables) := do
  let t := change.target
  let t ← substKind w .filename change (vars.filename.matchList.map (·.regex)) t
  let t ← substKind w .ext change (vars.ext.matchList.map (·.regex)) t
  let t ← substKind w .parentDir change (vars.parentDir.matchList.map (·.regex)) t
  let t ← substKind w .exif change (vars.exif.matchList.map (·.regex)) t
  let t ← substKind w .index change (vars.index.matchList.map (·.regex)) t
  let t ← substKind w .id3 change (vars.id3.matchList.map (·.regex)) t
  let t ← substKind w .hash change (vars.hash.matchList.map (·.regex)) t
  let t ← substKind w .date change (vars.date.matchList.map (·.regex)) t
  let t ← substKind w .exiftool change (vars.exiftool.matchList.map (·.regex)) t
  let t ← substKind w .transform change (vars.transform.matchList.map (·.regex)) t
  let t ← substKind w .csv change (vars.csv.values.map (·.regex)) t
  return (t, vars)

/-- The per-file body of the `replaceMatches` loop: set the batch position,
optionally strip the extension, run the limited regex replacer, substitute
variables, reattach the extension, then trim, clean, and record status and
target path. -/
def processMatch (w : World) (conf : Config) (i : Nat) (change : FileChange)
    (vars : Variables) : GoOutcome (FileChange × Variables) := do
  let change := { change with index := i }
  let originalName := change.source
  let fileExt := goExt originalName
  let originalName :=
    if conf.ignoreExt ∧ ¬ change.isDir then stripExtension originalName
    else originalName
  let change := { change with target := replaceString conf originalName }
  let (t, vars) ← replaceVariables w conf change vars
  let change := { change with target := t }
  let change :=
    if conf.ignoreExt ∧ ¬ change.isDir then
      { change with target := change.target ++ fileExt }
    else change
  let change := { change with target := trimSpace (goClean change.target) }
  let change := { change with status := .ok }
  let change := { change with relTargetPath := goJoin change.baseDir change.target }
  return (change, vars)

/-- The `for i := range matches` loop of `replaceMatches`, threading the
extracted-variable state through the batch. -/
def replaceMatchesLoop (w : World) (conf : Config) :
    Nat → Variables → List FileChange → GoOutcome (List FileChange)
  | _, _, [] => .ok []
  | i, vars, change :: rest => do
    let (change, vars) ← processMatch w conf i change vars
    let out ← replaceMatchesLoop w conf (i + 1) vars rest
    return change :: out

/-- Translated from `replaceMatches`: extract the variables of the current
replacement template, reorder the batch hierarchically when the template
contains at least one index variable, then process every file in order. -/
def replaceMatches (w : World) (conf : Config) (ms : List FileChange) :
    GoOutcome (List FileChange) := do
  let vars ← extractVariables w conf.replacement
  let ms :=
    if 0 < vars.index.matchList.length then w.enforceHierarchicalOrder ms
    else ms
  replaceMatchesLoop w conf 0 vars ms

/-- The `for i, v := range replacementSlice` loop of
`handleReplacementChain`: `len` is the (constant) length of the replacement
slice and each list entry pairs a link's position with its replacement
template. -/
def chainLoop (w : World) (len : Nat) :
    List (Nat × GoStr) → Config → List FileChange → GoOutcome (List FileChange)
  | [], _, ms => .ok ms
  | (i, v) :: rest, conf, ms => do
    let conf := { conf with replacement := v }
    let ms ← replaceMatches w conf ms
    if len = 1 ∨ (0 < i ∧ i = len - 1) then
      return ms
    else
      let ms := ms.map fun change =>
        if i ≠ len - 1 then { change with source := change.target } else change
      let r ← conf.findStringRegex (i + 1)
      chainLoop w len rest { conf with searchRegex := r } ms

/-- Translated from `handleReplacementChain`: run the batch through every
chain link in order, overwriting each file's source with the target just
produced between links and recompiling the search pattern from the next
link's find-argument. -/
def handleReplacementChain (w : World) (conf : Config) (ms : List FileChange) :
    GoOutcome (List FileChange) :=
  chainLoop w conf.replacementSlice.length conf.replacementSlice.enum conf ms

/-- A compiled pattern that matches nothing: the whole input is one literal
gap. -/
def noMatchRegex : GoRegex where
  split := fun s => [.inl s]
  expand := fun _ repl => repl

/-- A lexicon regex that never matches. -/
def noMatchLex : LexRegex where
  matchString := fun _ => false
  findAllSubmatch := fun _ => []

/-- A concrete world in which no template contains any variable token, every
pattern compiles, the hierarchical reorder is the identity, and every
provider resolves to the empty string. -/
def trivWorld : World where
  csvVarRegex := noMatchLex
  dateVarRegex := noMatchLex
  hashVarRegex := noMatchLex
  transformVarRegex := noMatchLex
  exifVarRegex := noMatchLex
  indexVarRegex := noMatchLex
  exiftoolVarRegex := noMatchLex
  id3VarRegex := noMatchLex
  extensionVarRegex := noMatchLex
  parentDirVarRegex := noMatchLex
  filenameVarRegex := noMatchLex
  compile := fun _ => .ok noMatchRegex
  enforceHierarchicalOrder := id
  resolveVar := fun _ _ _ => .ok []

def confC2 : Config where
  searchRegex := litRegex 'A'
  replacement := []
  replaceLimit := 0
  ignoreExt := false
  replacementSlice := [gs "B", gs "C"]
  findStringRegex := fun i => if i = 1 then .ok (litRegex 'B') else .err .findErr

/-- The orchestrator claim C3 describes (used only to compare against the
translated code): identical to `handleReplacementChain`, except that the
hierarchical reorder is performed exactly before the first chain link whose
template contains at least one index token and at no other point
(`already` records whether that reorder has happened). -/
def chainLoopFirstOnly (w : World) (len : Nat) :
    List (Nat × GoStr) → Config → List FileChange → Bool → GoOutcome (List FileChange)
  | [], _, ms, _ => .ok ms
  | (i, v) :: rest, conf, ms, already => do
    let conf := { conf with replacement := v }
    let vars ← extractVariables w conf.replacement
    let hasIdx : Bool := decide (0 < vars.index.matchList.length)
    let ms :=
      if hasIdx = true ∧ already = false then w.enforceHierarchicalOrder ms
      else ms
    let ms ← replaceMatchesLoop w conf 0 vars ms
    if len = 1 ∨ (0 < i ∧ i = len - 1) then
      return ms
    else
      let ms := ms.map fun change =>
        if i ≠ len - 1 then { change with source := change.target } else change
      let r ← conf.findStringRegex (i + 1)
      chainLoopFirstOnly w len rest { conf with searchRegex := r } ms (already || hasIdx)

/-- Top level of the claimed reorder-once orchestrator. -/
def chainReorderOnlyBeforeFirst (w : World) (conf : Config) (ms : List FileChange) :
    GoOutcome (List FileChange) :=
  chainLoopFirstOnly w conf.replacementSlice.length conf.replacementSlice.enum conf ms false

/-- A lexicon regex whose only match is in the template `I`, yielding a full
8-entry index submatch with all optional fields empty. -/
def idxLex : LexRegex where
  matchString := fun t => t = gs "I"
  findAllSubmatch := fun t =>
    if t = gs "I" then [[gs "I", [], [], [], [], [], [], []]] else []

/-- A world whose index lexicon recognises the template `I` and whose
hierarchical reorder collaborator reverses the batch (any behaviour is
admissible for the abstract external collaborator). -/
def wIdx : World :=
  { trivWorld with
      indexVarRegex := idxLex
      compile := fun _ => .ok (litRegex 'I') }

/-- A world whose hierarchical reorder reverses the batch. -/
def wIdxRev : World := { wIdx with enforceHierarchicalOrder := List.reverse }

def confC3 : Config where
  searchRegex := noMatchRegex
  replacement := []
  replaceLimit := 0
  ignoreExt := false
  replacementSlice := [gs "I", gs "I"]
  findStringRegex := fun _ => .ok noMatchRegex

/-- A world whose index lexicon yields a single too-short submatch on the
template `I`. -/
def wShortIdx : World :=
  { trivWorld with
      indexVarRegex :=
        { matchString := fun t => t = gs "I"
          findAllSubmatch := fun t => if t = gs "I" then [[gs "x"]] else [] } }

def confC6 : Config where
  searchRegex := litRegex 'a'
  replacement := gs "b.ext"
  replaceLimit := 0
  ignoreExt := true
  replacementSlice := [gs "b.ext"]
  findStringRegex := fun _ => .err .findErr

def confC7 : Config where
  searchRegex := litRegex 'x'
  replacement := []
  replaceLimit := 0
  ignoreExt := false
  replacementSlice := [gs "r"]
  findStringRegex := fun _ => .err .findErr

@[simp] theorem GoOutcome.seqBind_eq {α β : Type} (x : GoOutcome α) (f : α → GoOutcome β) :
    x >>= f = GoOutcome.bind x f := rfl

@[simp] theorem GoOutcome.pure_eq {α : Type} (a : α) :
    (pure a : GoOutcome α) = .ok a := rfl

@[simp] theorem GoOutcome.bind_pure_self {α : Type} (x : GoOutcome α) :
    GoOutcome.bind x (fun a => GoOutcome.ok a) = x := by
  cases x <;> rfl

/-- Claim C2 (amended): for a two-link chain the orchestrator runs the first
link, overwrites every file's source with the target that link produced,
recompiles the search pattern from the second link's find-argument, and runs
the second link on the result — so a file matching the first pattern ends
with the second link's transformation of the intermediate name; the
intermediate value does not survive into the final target computation other
than as the second link's input, but it does remain visible to the caller
as the returned files' `source` field. -/
theorem chain_two_links (w : World) (conf : Config) (ms : List FileChange)
    (v0 v1 : GoStr) (r1 : GoRegex)
    (hslice : conf.replacementSlice = [v0, v1])
    (hfind : conf.findStringRegex 1 = .ok r1) :
    handleReplacementChain w conf ms =
      GoOutcome.bind (replaceMatches w { conf with replacement := v0 } ms)
        (fun m1 =>
          replaceMatches w { conf with replacement := v1, searchRegex := r1 }
            (m1.map fun c => { c with source := c.target })) := by
  unfold handleReplacementChain
  conv_lhs => rw [hslice]
  show chainLoop w 2 [(0, v0), (1, v1)] conf ms = _
  simp only [chainLoop]
  cases h1 : replaceMatches w { conf with replacement := v0 } ms with
  | ok m1 =>
    simp only [GoOutcome.seqBind_eq, GoOutcome.bind_ok]
    rw [if_neg (by omega : ¬(2 = 1 ∨ (0 < 0 ∧ 0 = 2 - 1)))]
    rw [hfind]
    simp only [GoOutcome.bind_ok, chainLoop]
    have hc1 : ((0 : Nat) ≠ 2 - 1) := by omega
    have hc2 : (2 = 1 ∨ 0 < 1 ∧ True) := by simp
    simp only [if_pos hc1, if_pos hc2, GoOutcome.pure_eq, GoOutcome.bind_pure_self]
  | err e => simp [h1]
  | panicked e => simp [h1]

/-- Witness for claim C2 at a concrete two-link chain `[(A→B),(B→C)]`. -/
theorem chain_two_links_witness :
    handleReplacementChain trivWorld confC2 [{ source := gs "A" }] =
      GoOutcome.bind
        (replaceMatches trivWorld { confC2 with replacement := gs "B" }
          [{ source := gs "A" }])
        (fun m1 =>
          replaceMatches trivWorld
            { confC2 with replacement := gs "C", searchRegex := litRegex 'B' }
            (m1.map fun c => { c with source := c.target })) :=
  chain_two_links trivWorld confC2 [{ source := gs "A" }] (gs "B") (gs "C")
    (litRegex 'B') rfl rfl

/-- Counterexample to claim C2 as stated: for the chain `[(A→B),(B→C)]` over
a file named `A`, the batch returned to the caller carries the intermediate
`B`-transformed value in its `source` field (the final target is the
`C`-transformed name, but the intermediate is visible to the caller). -/
theorem chain_intermediate_visible_to_caller :
    handleReplacementChain trivWorld confC2 [{ source := gs "A" }] =
      .ok [{ source := gs "B", target := gs "C", relTargetPath := gs "C",
             status := .ok, index := 0 }] ∧
    replaceString { confC2 with replacement := gs "B" } (gs "A") = gs "B" :=
  ⟨by decide, by decide⟩

/-- Claim C3 (amended): the hierarchical (parent-before-child) reordering is
performed by `replaceMatches` — and hence before every chain link, not just
the first — exactly when that link's own template yields at least one index
token; links without index tokens leave the order unchanged. -/
theorem replaceMatches_reorder_condition (w : World) (conf : Config)
    (ms : List FileChange) (vars : Variables)
    (h : extractVariables w conf.replacement = .ok vars) :
    replaceMatches w conf ms =
      replaceMatchesLoop w conf 0 vars
        (if 0 < vars.index.matchList.length then w.enforceHierarchicalOrder ms
         else ms) := by
  unfold replaceMatches
  simp only [h, GoOutcome.seqBind_eq, GoOutcome.bind_ok]

/-- The variables extracted from the template `I` in the world `wIdxRev`:
one index token, nothing else. -/
def varsI : Variables where
  index :=
    { capturVarIndex := []
      offset := [0]
      matchList := [{ regex := litRegex 'I'
                      submatch := [gs "I", [], [], [], [], [], [], []] }] }

/-- Witness for claim C3: a link whose template `I` carries an index token,
with the reorder collaborator instantiated to reversal. -/
theorem replaceMatches_reorder_condition_witness :
    replaceMatches wIdxRev { confC3 with replacement := gs "I" }
        [{ source := gs "a" }, { source := gs "b" }] =
      replaceMatchesLoop wIdxRev { confC3 with replacement := gs "I" } 0 varsI
        (if 0 < varsI.index.matchList.length then
          wIdxRev.enforceHierarchicalOrder
            [{ source := gs "a" }, { source := gs "b" }]
         else [{ source := gs "a" }, { source := gs "b" }]) :=
  replaceMatches_reorder_condition wIdxRev { confC3 with replacement := gs "I" }
    [{ source := gs "a" }, { source := gs "b" }] varsI rfl

/-- Counterexample to claim C3 as stated: with two links whose templates both
carry an index token, the translated orchestrator reorders before the second
link as well, so it disagrees with the claimed orchestrator that reorders
only before the first such link. -/
theorem chain_reorder_not_only_first :
    handleReplacementChain wIdxRev confC3
        [{ source := gs "a" }, { source := gs "b" }] ≠
      chainReorderOnlyBeforeFirst wIdxRev confC3
        [{ source := gs "a" }, { source := gs "b" }] := by
  decide

/-- Claim C4 (amended): for every token lexicon, a match that yields fewer
capture groups than the lexicon's expected count aborts extraction for that
template — the ten non-index lexicons return the `invalidSubmatches` error
to the caller, but the index lexicon instead panics with it
(`panic(errInvalidSubmatches)` in the source), terminating the program
rather than returning the error. -/
theorem lexicons_short_submatch (w : World) (t : GoStr) (s : List GoStr)
    (rest : List (List GoStr)) :
    (w.csvVarRegex.matchString t = true → w.csvVarRegex.findAllSubmatch t = s :: rest →
      s.length < 3 → getCSVVars w t = .err .invalidSubmatches) ∧
    (w.dateVarRegex.matchString t = true → w.dateVarRegex.findAllSubmatch t = s :: rest →
      s.length < 4 → getDateVars w t = .err .invalidSubmatches) ∧
    (w.hashVarRegex.matchString t = true → w.hashVarRegex.findAllSubmatch t = s :: rest →
      s.length < 3 → getHashVars w t = .err .invalidSubmatches) ∧
    (w.transformVarRegex.matchString t = true → w.transformVarRegex.findAllSubmatch t = s :: rest →
      s.length < 5 → getTransformVars w t = .err .invalidSubmatches) ∧
    (w.exifVarRegex.matchString t = true → w.exifVarRegex.findAllSubmatch t = s :: rest →
      s.length < 4 → getExifVars w t = .err .invalidSubmatches) ∧
    (w.exiftoolVarRegex.matchString t = true → w.exiftoolVarRegex.findAllSubmatch t = s :: rest →
      s.length < 3 → getExifToolVars w t = .err .invalidSubmatches) ∧
    (w.id3VarRegex.matchString t = true → w.id3VarRegex.findAllSubmatch t = s :: rest →
      s.length < 2 → getID3Vars w t = .err .invalidSubmatches) ∧
    (w.extensionVarRegex.matchString t = true → w.extensionVarRegex.findAllSubmatch t = s :: rest →
      s.length < 2 → getExtVars w t = .err .invalidSubmatches) ∧
    (w.parentDirVarRegex.matchString t = true → w.parentDirVarRegex.findAllSubmatch t = s :: rest →
      s.length < 3 → getParentDirVars w t = .err .invalidSubmatches) ∧
    (w.filenameVarRegex.matchString t = true → w.filenameVarRegex.findAllSubmatch t = s :: rest →
      s.length < 2 → getFilenameVars w t = .err .invalidSubmatches) ∧
    (w.indexVarRegex.findAllSubmatch t = s :: rest →
      s.length < 8 → getIndexingVars w t = .panicked .invalidSubmatches) := by
  refine ⟨?_, ?_, ?_, ?_, ?_, ?_, ?_, ?_, ?_, ?_, ?_⟩
  · intro hm hf hlen
    unfold getCSVVars
    simp only [hm, if_true, hf, csvVarsLoop, if_pos hlen, GoOutcome.seqBind_eq,
      GoOutcome.bind_err]
  · intro hm hf hlen
    unfold getDateVars
    simp only [hm, not_true, if_false, hf, dateVarsLoop, if_pos hlen,
      GoOutcome.seqBind_eq, GoOutcome.bind_err]
  · intro hm hf hlen
    unfold getHashVars
    simp only [hm, not_true, if_false, hf, hashVarsLoop, if_pos hlen,
      GoOutcome.seqBind_eq, GoOutcome.bind_err]
  · intro hm hf hlen
    unfold getTransformVars
    simp only [hm, not_true, if_false, hf, transformVarsLoop, if_pos hlen,
      GoOutcome.seqBind_eq, GoOutcome.bind_err]
  · intro hm hf hlen
    unfold getExifVars
    simp only [hm, not_true, if_false, hf, exifVarsLoop, if_pos hlen,
      GoOutcome.seqBind_eq, GoOutcome.bind_err]
  · intro hm hf hlen
    unfold getExifToolVars
    simp only [hm, not_true, if_false, hf, exiftoolVarsLoop, if_pos hlen,
      GoOutcome.seqBind_eq, GoOutcome.bind_err]
  · intro hm hf hlen
    unfold getID3Vars
    simp only [hm, not_true, if_false, hf, id3VarsLoop, if_pos hlen,
      GoOutcome.seqBind_eq, GoOutcome.bind_err]
  · intro hm hf hlen
    unfold getExtVars
    simp only [hm, not_true, if_false, hf, extVarsLoop, if_pos hlen,
      GoOutcome.seqBind_eq, GoOutcome.bind_err]
  · intro hm hf hlen
    unfold getParentDirVars
    simp only [hm, not_true, if_false, hf, parentDirVarsLoop, if_pos hlen,
      GoOutcome.seqBind_eq, GoOutcome.bind_err]
  · intro hm hf hlen
    unfold getFilenameVars
    simp only [hm, not_true, if_false, hf, filenameVarsLoop, if_pos hlen,
      GoOutcome.seqBind_eq, GoOutcome.bind_err]
  · intro hf hlen
    unfold getIndexingVars
    simp only [hf, indexVarsLoop, if_pos hlen, GoOutcome.seqBind_eq,
      GoOutcome.bind_panicked]
    simp

/-- A lexicon regex that always yields one single-entry submatch. -/
def shortLex : LexRegex where
  matchString := fun _ => true
  findAllSubmatch := fun _ => [[gs "x"]]

/-- A world in which every lexicon regex yields a too-short submatch. -/
def wAllShort : World :=
  { trivWorld with
      csvVarRegex := shortLex
      dateVarRegex := shortLex
      hashVarRegex := shortLex
      transformVarRegex := shortLex
      exifVarRegex := shortLex
      indexVarRegex := shortLex
      exiftoolVarRegex := shortLex
      id3VarRegex := shortLex
      extensionVarRegex := shortLex
      parentDirVarRegex := shortLex
      filenameVarRegex := shortLex }

/-- Witness for claim C4: every lexicon applied to a template whose (abstract)
match yields a single-entry submatch; the ten non-index lexicons return the
error, the index lexicon panics. -/
theorem lexicons_short_submatch_witness :
    getCSVVars wAllShort (gs "T") = .err .invalidSubmatches ∧
    getDateVars wAllShort (gs "T") = .err .invalidSubmatches ∧
    getHashVars wAllShort (gs "T") = .err .invalidSubmatches ∧
    getTransformVars wAllShort (gs "T") = .err .invalidSubmatches ∧
    getExifVars wAllShort (gs "T") = .err .invalidSubmatches ∧
    getExifToolVars wAllShort (gs "T") = .err .invalidSubmatches ∧
    getID3Vars wAllShort (gs "T") = .err .invalidSubmatches ∧
    getExtVars wAllShort (gs "T") = .err .invalidSubmatches ∧
    getParentDirVars wAllShort (gs "T") = .err .invalidSubmatches ∧
    getFilenameVars wAllShort (gs "T") = .err .invalidSubmatches ∧
    getIndexingVars wAllShort (gs "T") = .panicked .invalidSubmatches := by
  have h := lexicons_short_submatch wAllShort (gs "T") [gs "x"] []
  exact ⟨h.1 rfl rfl (by decide), h.2.1 rfl rfl (by decide),
    h.2.2.1 rfl rfl (by decide), h.2.2.2.1 rfl rfl (by decide),
    h.2.2.2.2.1 rfl rfl (by decide), h.2.2.2.2.2.1 rfl rfl (by decide),
    h.2.2.2.2.2.2.1 rfl rfl (by decide), h.2.2.2.2.2.2.2.1 rfl rfl (by decide),
    h.2.2.2.2.2.2.2.2.1 rfl rfl (by decide),
    h.2.2.2.2.2.2.2.2.2.1 rfl rfl (by decide),
    h.2.2.2.2.2.2.2.2.2.2 rfl (by decide)⟩

/-- Counterexample to claim C4 as stated: on a too-short index submatch the
index lexicon does not return the `invalidSubmatches` error to the caller —
it panics with it, terminating the program. -/
theorem getIndexingVars_panics_on_short_submatch :
    getIndexingVars wShortIdx (gs "I") = .panicked .invalidSubmatches ∧
    getIndexingVars wShortIdx (gs "I") ≠ .err .invalidSubmatches := by
  have h : getIndexingVars wShortIdx (gs "I") = .panicked .invalidSubmatches := rfl
  exact ⟨h, by rw [h]; intro hc; exact GoOutcome.noConfusion hc⟩

/-- Claim C5: any extraction or substitution failure at any chain link
aborts the whole chain invocation with that failure — an error (or panic)
from the current link's `replaceMatches`, or from recompiling the next
link's search pattern, becomes the result of the entire loop from that link
onward, and a chain whose first link fails returns the failure directly; no
batch accompanies a failure (the result is a single `err` or `panicked`
value), so there is no per-file partial-failure mode. -/
theorem chain_aborts_on_failure (w : World) (len i : Nat) (v : GoStr)
    (vs : List GoStr) (rest : List (Nat × GoStr)) (conf : Config)
    (ms ms2 : List FileChange) (e : GoErr) :
    (replaceMatches w { conf with replacement := v } ms = .err e →
      chainLoop w len ((i, v) :: rest) conf ms = .err e) ∧
    (replaceMatches w { conf with replacement := v } ms = .panicked e →
      chainLoop w len ((i, v) :: rest) conf ms = .panicked e) ∧
    (replaceMatches w { conf with replacement := v } ms = .ok ms2 →
      ¬(len = 1 ∨ (0 < i ∧ i = len - 1)) →
      conf.findStringRegex (i + 1) = .err e →
      chainLoop w len ((i, v) :: rest) conf ms = .err e) ∧
    (conf.replacementSlice = v :: vs →
      replaceMatches w { conf with replacement := v } ms = .err e →
      handleReplacementChain w conf ms = .err e) := by
  refine ⟨?_, ?_, ?_, ?_⟩
  · intro h
    simp only [chainLoop, h, GoOutcome.seqBind_eq, GoOutcome.bind_err]
  · intro h
    simp only [chainLoop, h, GoOutcome.seqBind_eq, GoOutcome.bind_panicked]
  · intro h hcond hfind
    simp only [chainLoop, h, GoOutcome.seqBind_eq, GoOutcome.bind_ok,
      if_neg hcond, hfind, GoOutcome.bind_err]
  · intro hslice h
    unfold handleReplacementChain
    conv_lhs => rw [hslice]
    show chainLoop w (v :: vs).length ((0, v) :: vs.enumFrom 1) conf ms = _
    simp only [chainLoop, h, GoOutcome.seqBind_eq, GoOutcome.bind_err]

/-- Witness for claim C5: a world whose first lexicon yields a short
submatch makes the first link's extraction fail, and the whole chain
invocation returns exactly that error. -/
theorem chain_aborts_on_failure_witness :
    handleReplacementChain wAllShort
        { searchRegex := noMatchRegex, replacement := [], replaceLimit := 0,
          ignoreExt := false, replacementSlice := [gs "T"],
          findStringRegex := fun _ => .err .findErr }
        [{ source := gs "a" }] = .err .invalidSubmatches :=
  (chain_aborts_on_failure wAllShort 1 0 (gs "T") [] [] _
      [{ source := gs "a" }] [] .invalidSubmatches).2.2.2 rfl (by decide)

theorem splitOnChar_no_sep (c : Char) :
    ∀ u : GoStr, (∀ x ∈ u, x ≠ c) → splitOnChar c u = [u] := by
  intro u
  induction u with
  | nil => intro _; rfl
  | cons x xs ih =>
    intro h
    have hx : x ≠ c := h x (by simp)
    simp only [splitOnChar, if_neg hx, ih (fun y hy => h y (by simp [hy]))]

theorem splitOnChar_append (c : Char) (u : GoStr) (hu : ∀ x ∈ u, x ≠ c) :
    ∀ p : GoStr, ∃ xs x, splitOnChar c (p ++ u) = xs ++ [x ++ u] := by
  intro p
  induction p with
  | nil =>
    refine ⟨[], [], ?_⟩
    simp [splitOnChar_no_sep c u hu]
  | cons y p' ih =>
    obtain ⟨xs, x, hx⟩ := ih
    by_cases hy : y = c
    · refine ⟨[] :: xs, x, ?_⟩
      simp [splitOnChar, if_pos hy, hx]
    · cases xs with
      | nil =>
        refine ⟨[], y :: x, ?_⟩
        simp only [List.cons_append, splitOnChar, if_neg hy, List.append_eq]
        rw [hx]
        simp
      | cons x0 xs' =>
        refine ⟨(y :: x0) :: xs', x, ?_⟩
        simp only [List.cons_append, splitOnChar, if_neg hy, List.append_eq]
        rw [hx]
        simp

theorem joinComps_suffix (comp : GoStr) :
    ∀ ys : List GoStr, comp <:+ joinComps (ys ++ [comp]) := by
  intro ys
  induction ys with
  | nil => simp [joinComps]
  | cons y ys ih =>
    have hne : ys ++ [comp] ≠ [] := by simp
    obtain ⟨z, l', hz⟩ := List.exists_cons_of_ne_nil hne
    have : joinComps (y :: (ys ++ [comp])) = y ++ '/' :: joinComps (ys ++ [comp]) := by
      rw [hz]; rfl
    rw [List.cons_append, this]
    refine ih.trans ?_
    exact ⟨y ++ ['/'], by simp⟩

theorem cleanStep_normal (rooted : Bool) (acc : List GoStr) (comp : GoStr)
    (h1 : comp ≠ []) (h2 : comp ≠ ['.']) (h3 : comp ≠ ['.', '.']) :
    cleanStep rooted acc comp = acc ++ [comp] := by
  unfold cleanStep
  rw [if_neg (by simp [h1, h2]), if_neg h3]

theorem goClean_suffix (p e : GoStr) (he : e ≠ [])
    (hch : ∀ ch ∈ e, ch ≠ '/' ∧ ch ≠ '.') :
    ('.' :: e) <:+ goClean (p ++ '.' :: e) := by
  have hne : p ++ '.' :: e ≠ [] := by simp
  have hu : ∀ x ∈ ('.' :: e), x ≠ '/' := by
    intro x hx
    rcases List.mem_cons.1 hx with h | h
    · subst h; decide
    · exact (hch x h).1
  obtain ⟨xs, x, hsplit⟩ := splitOnChar_append '/' ('.' :: e) hu p
  have hel : 0 < e.length := List.length_pos.2 he
  have hcomp1 : x ++ '.' :: e ≠ [] := by simp
  have hcomp2 : x ++ '.' :: e ≠ ['.'] := by
    intro hh
    have := congrArg List.length hh
    simp at this
    omega
  have hcomp3 : x ++ '.' :: e ≠ ['.', '.'] := by
    intro hh
    have hlen := congrArg List.length hh
    simp at hlen
    have hx0 : x = [] := by
      cases x with
      | nil => rfl
      | cons a b => simp at hlen; omega
    subst hx0
    simp at hh
    have : '.' ∈ e := by simp [hh]
    exact (hch '.' this).2 rfl
  simp only [goClean, if_neg hne, hsplit, List.foldl_append, List.foldl_cons,
    List.foldl_nil]
  rw [cleanStep_normal _ _ _ hcomp1 hcomp2 hcomp3]
  rw [if_neg (by simp)]
  have h5 : ('.' :: e) <:+ joinComps
      (List.foldl (cleanStep (decide ((p ++ '.' :: e).head? = some '/'))) [] xs ++
        [x ++ '.' :: e]) :=
    List.IsSuffix.trans ⟨x, rfl⟩ (joinComps_suffix _ _)
  exact h5.trans ⟨_, rfl⟩

theorem dropWhile_keeps_suffix (e : GoStr) :
    ∀ a : GoStr, ('.' :: e) <:+ List.dropWhile goIsSpace (a ++ '.' :: e) := by
  intro a
  induction a with
  | nil =>
    rw [List.nil_append, List.dropWhile_cons]
    rw [if_neg (by decide : ¬(goIsSpace '.' = true))]
  | cons c a ih =>
    rw [List.cons_append, List.dropWhile_cons]
    by_cases hc : goIsSpace c = true
    · rw [if_pos hc]; exact ih
    · rw [if_neg hc]
      exact ⟨c :: a, by simp⟩

theorem trimSpace_keeps_dotext (s e : GoStr) (he : e ≠ [])
    (hsp : ∀ ch ∈ e, goIsSpace ch = false) (hs : ('.' :: e) <:+ s) :
    ('.' :: e) <:+ trimSpace s := by
  obtain ⟨a, rfl⟩ := hs
  obtain ⟨b, hb⟩ := dropWhile_keeps_suffix e a
  unfold trimSpace
  rw [← hb]
  obtain ⟨el, es, he'⟩ : ∃ el es, e.reverse = el :: es := by
    cases hrev : e.reverse with
    | nil =>
      exfalso
      have : e = [] := by simpa using congrArg List.reverse hrev
      exact he this
    | cons el es => exact ⟨el, es, rfl⟩
  have hel : goIsSpace el = false := by
    refine hsp el ?_
    have : el ∈ e.reverse := by rw [he']; simp
    simpa using this
  have hrev : (b ++ '.' :: e).reverse = el :: (es ++ '.' :: b.reverse) := by
    rw [List.reverse_append, List.reverse_cons, he']
    simp
  rw [hrev, List.dropWhile_cons, if_neg (by simp [hel])]
  rw [show el :: (es ++ '.' :: b.reverse) = (b ++ '.' :: e).reverse from by rw [hrev]]
  rw [List.reverse_reverse]
  exact ⟨b, rfl⟩

theorem trimClean_keeps_ext (t e : GoStr) (he : e ≠ [])
    (hw : ∀ ch ∈ e, ch ≠ '/' ∧ ch ≠ '.' ∧ goIsSpace ch = false) :
    ('.' :: e) <:+ trimSpace (goClean (t ++ '.' :: e)) :=
  trimSpace_keeps_dotext _ _ he (fun ch h => (hw ch h).2.2)
    (goClean_suffix t e he (fun ch h => ⟨(hw ch h).1, (hw ch h).2.1⟩))

theorem goExtRev_shape :
    ∀ (r acc e : GoStr), goExtRev r acc = some e →
      ∃ d, e = '.' :: (d ++ acc) ∧ (d.reverse ++ ['.']) <+: r := by
  intro r
  induction r with
  | nil => intro acc e h; exact absurd h (by simp [goExtRev])
  | cons c rest ih =>
    intro acc e h
    by_cases hc : c = '/'
    · rw [goExtRev, if_pos hc] at h
      exact absurd h (by simp)
    · by_cases hd : c = '.'
      · rw [goExtRev, if_neg hc, if_pos hd] at h
        refine ⟨[], ?_, ?_⟩
        · have : '.' :: acc = e := by
            have := h
            subst hd
            exact Option.some.inj this
          simp [← this]
        · subst hd
          simp
      · rw [goExtRev, if_neg hc, if_neg hd] at h
        obtain ⟨d', hd1, hd2⟩ := ih (c :: acc) e h
        refine ⟨d' ++ [c], ?_, ?_⟩
        · simp [hd1]
        · simp only [List.reverse_append, List.reverse_cons, List.reverse_nil,
            List.nil_append, List.cons_append]
          exact List.cons_prefix_cons.2 ⟨rfl, hd2⟩

theorem goExt_shape (p : GoStr) :
    goExt p = [] ∨ (∃ d, goExt p = '.' :: d ∧ goExt p <:+ p) := by
  unfold goExt
  cases h : goExtRev p.reverse [] with
  | none => left; rfl
  | some e =>
    right
    obtain ⟨d, hd1, hd2⟩ := goExtRev_shape p.reverse [] e h
    refine ⟨d, by simp [hd1], ?_⟩
    have he : e.reverse <+: p.reverse := by
      rw [hd1]
      simpa using hd2
    exact List.reverse_prefix.1 he

theorem stripExtension_append_ext (p : GoStr) :
    stripExtension p ++ goExt p = p := by
  rcases goExt_shape p with h | ⟨d, _, hsuf⟩
  · simp [stripExtension, h]
  · obtain ⟨a, ha⟩ := hsuf
    unfold stripExtension
    generalize goExt p = ext at ha ⊢
    subst ha
    have hlen : (a ++ ext).length - ext.length = a.length := by simp
    rw [hlen, List.take_left]

theorem GoOutcome.bind_eq_ok {α β : Type} {x : GoOutcome α} {f : α → GoOutcome β}
    {b : β} (h : GoOutcome.bind x f = .ok b) : ∃ a, x = .ok a ∧ f a = .ok b := by
  cases x with
  | ok a => exact ⟨a, rfl, h⟩
  | err e => exact absurd h (by simp)
  | panicked e => exact absurd h (by simp)

/-- A well-formed extension tail: at least one character after the dot, and
no slash, dot, or whitespace in the tail. -/
def extOK (x : GoStr) : Prop :=
  2 ≤ x.length ∧ ∀ ch ∈ x.drop 1, ch ≠ '/' ∧ ch ≠ '.' ∧ goIsSpace ch = false

instance (x : GoStr) : Decidable (extOK x) := by
  unfold extOK
  infer_instance

/-- Everything the per-file loop body guarantees about a successfully
processed file: identity fields survive, the status and index are set, the
relative target path is the join of base directory and final target, the
final target is the trimmed path-cleaned value of the pre-normalisation
name, and in extension-preserving mode the pre-normalisation name of a
non-directory ends with the source's extension. -/
theorem processMatch_ok_shape (w : World) (conf : Config) (i : Nat)
    (change : FileChange) (vars : Variables) (g : FileChange) (vars' : Variables)
    (h : processMatch w conf i change vars = .ok (g, vars')) :
    g.source = change.source ∧ g.baseDir = change.baseDir ∧
    g.isDir = change.isDir ∧ g.status = .ok ∧ g.index = i ∧
    g.relTargetPath = goJoin change.baseDir g.target ∧
    ∃ t0, g.target = trimSpace (goClean t0) ∧
      (conf.ignoreExt = true → change.isDir = false →
        ∃ t1, t0 = t1 ++ goExt change.source) := by
  simp only [processMatch, GoOutcome.seqBind_eq] at h
  obtain ⟨⟨t, v2⟩, hrv, hF⟩ := GoOutcome.bind_eq_ok h
  by_cases hP : conf.ignoreExt = true ∧ ¬ change.isDir = true
  · simp only [if_pos hP, GoOutcome.pure_eq] at hF
    have hg : g = { change with
        index := i,
        target := trimSpace (goClean (t ++ goExt change.source)),
        status := .ok,
        relTargetPath :=
          goJoin change.baseDir (trimSpace (goClean (t ++ goExt change.source))) } := by
      cases hF; rfl
    subst hg
    refine ⟨rfl, rfl, rfl, rfl, rfl, rfl, t ++ goExt change.source, rfl, ?_⟩
    intro _ _
    exact ⟨t, rfl⟩
  · simp only [if_neg hP, GoOutcome.pure_eq] at hF
    have hg : g = { change with
        index := i,
        target := trimSpace (goClean t),
        status := .ok,
        relTargetPath := goJoin change.baseDir (trimSpace (goClean t)) } := by
      cases hF; rfl
    subst hg
    refine ⟨rfl, rfl, rfl, rfl, rfl, rfl, t, rfl, ?_⟩
    intro h1 h2
    exact absurd ⟨h1, by simp [h2]⟩ hP

theorem replaceMatchesLoop_ok_ext (w : World) (conf : Config)
    (hic : conf.ignoreExt = true) :
    ∀ (l : List FileChange) (i : Nat) (vars : Variables) (out : List FileChange),
      (∀ f ∈ l, f.isDir = false ∧ extOK (goExt f.source)) →
      replaceMatchesLoop w conf i vars l = .ok out →
      ∀ g ∈ out, goExt g.source ≠ [] ∧ goExt g.source <:+ g.target := by
  intro l
  induction l with
  | nil =>
    intro i vars out _ h g hg
    simp only [replaceMatchesLoop] at h
    cases h
    exact absurd hg (by simp)
  | cons f rest ih =>
    intro i vars out hall h g hg
    simp only [replaceMatchesLoop, GoOutcome.seqBind_eq] at h
    obtain ⟨⟨g1, v2⟩, h1, h2⟩ := GoOutcome.bind_eq_ok h
    obtain ⟨out2, h3, h4⟩ := GoOutcome.bind_eq_ok h2
    simp only [GoOutcome.pure_eq] at h4
    cases h4
    rcases List.mem_cons.1 hg with hg1 | hg2
    · subst hg1
      obtain ⟨hsrc, _, _, _, _, _, t0, htgt, hext⟩ :=
        processMatch_ok_shape w conf i f vars g v2 h1
      obtain ⟨hdir, hok⟩ := hall f (by simp)
      obtain ⟨t1, ht1⟩ := hext hic hdir
      obtain ⟨hlen2, hwf⟩ := hok
      rcases goExt_shape f.source with hnil | ⟨d, hd, _⟩
      · rw [hnil] at hlen2; simp at hlen2
      · have hdlen : d ≠ [] := by
          intro he
          rw [hd, he] at hlen2
          simp at hlen2
        have hdwf : ∀ ch ∈ d, ch ≠ '/' ∧ ch ≠ '.' ∧ goIsSpace ch = false := by
          intro ch hch
          refine hwf ch ?_
          rw [hd]
          simpa using hch
        refine ⟨?_, ?_⟩
        · rw [hsrc, hd]; simp
        · rw [hsrc, hd]
          rw [htgt, ht1, hd]
          exact trimClean_keeps_ext t1 d hdlen hdwf
    · exact ih (i + 1) v2 out2 (fun f hf => hall f (by simp [hf])) h3 g hg2

/-- Claim C6 (amended): with extension-preserving mode on, for every
non-directory file whose name carries a well-formed extension `.ext` and
every chain-link template, the computed final target ends with `.ext` — the
reattach step never drops the extension.  (It is NOT guaranteed to appear
exactly once: a replacement that itself produces a name ending in `.ext`
yields a target ending in `.ext.ext`, as the counterexample shows.) -/
theorem replaceMatches_preserves_extension (w : World) (conf : Config)
    (ms out : List FileChange)
    (hic : conf.ignoreExt = true)
    (hms : ∀ f ∈ ms, f.isDir = false ∧ extOK (goExt f.source))
    (hh : ∀ f ∈ w.enforceHierarchicalOrder ms,
      f.isDir = false ∧ extOK (goExt f.source))
    (hok : replaceMatches w conf ms = .ok out) :
    ∀ g ∈ out, goExt g.source ≠ [] ∧ goExt g.source <:+ g.target := by
  simp only [replaceMatches, GoOutcome.seqBind_eq] at hok
  obtain ⟨vars, _, hloop⟩ := GoOutcome.bind_eq_ok hok
  by_cases hidx : 0 < vars.index.matchList.length
  · rw [if_pos hidx] at hloop
    exact replaceMatchesLoop_ok_ext w conf hic _ 0 vars out hh hloop
  · rw [if_neg hidx] at hloop
    exact replaceMatchesLoop_ok_ext w conf hic _ 0 vars out hms hloop

def confC6b : Config where
  searchRegex := litRegex 'a'
  replacement := gs "b"
  replaceLimit := 0
  ignoreExt := true
  replacementSlice := [gs "b"]
  findStringRegex := fun _ => .err .findErr

/-- Witness for claim C6 at a concrete file `a.txt` renamed to `b`, with the
extension preserved in the target `b.txt`. -/
theorem replaceMatches_preserves_extension_witness :
    goExt (gs "a.txt") ≠ [] ∧ goExt (gs "a.txt") <:+ gs "b.txt" :=
  replaceMatches_preserves_extension trivWorld confC6b
    [{ source := gs "a.txt" }]
    [{ source := gs "a.txt", target := gs "b.txt",
       relTargetPath := gs "b.txt", status := .ok, index := 0 }]
    rfl (by decide) (by decide) (by decide)
    { source := gs "a.txt", target := gs "b.txt",
      relTargetPath := gs "b.txt", status := .ok, index := 0 } (by simp)

/-- Counterexample to claim C6 as stated: file `a.ext` under the template
`b.ext` (which contains no Extension token) produces the target
`b.ext.ext` — the target does end with `.ext`, but not exactly once. -/
theorem ext_duplicated_counterexample :
    replaceMatches trivWorld confC6 [{ source := gs "a.ext" }] =
      .ok [{ source := gs "a.ext", target := gs "b.ext.ext",
             relTargetPath := gs "b.ext.ext", status := .ok, index := 0 }] ∧
    ¬ ((gs ".ext") <:+ (gs "b.ext.ext") ∧
        ¬ (gs ".ext.ext") <:+ (gs "b.ext.ext")) := by
  constructor
  · decide
  · intro hc
    exact hc.2 (by decide)

theorem replaceMatchesLoop_ok_invariants (w : World) (conf : Config) :
    ∀ (l : List FileChange) (i : Nat) (vars : Variables) (out : List FileChange),
      replaceMatchesLoop w conf i vars l = .ok out →
      ∀ k (hk : k < out.length),
        (out.get ⟨k, hk⟩).status = .ok ∧
        (out.get ⟨k, hk⟩).index = i + k ∧
        (out.get ⟨k, hk⟩).relTargetPath =
          goJoin (out.get ⟨k, hk⟩).baseDir (out.get ⟨k, hk⟩).target ∧
        ∃ t0, (out.get ⟨k, hk⟩).target = trimSpace (goClean t0) := by
  intro l
  induction l with
  | nil =>
    intro i vars out h k hk
    simp only [replaceMatchesLoop] at h
    cases h
    exact absurd hk (by simp)
  | cons f rest ih =>
    intro i vars out h k hk
    simp only [replaceMatchesLoop, GoOutcome.seqBind_eq] at h
    obtain ⟨⟨g1, v2⟩, h1, h2⟩ := GoOutcome.bind_eq_ok h
    obtain ⟨out2, h3, h4⟩ := GoOutcome.bind_eq_ok h2
    simp only [GoOutcome.pure_eq] at h4
    cases h4
    obtain ⟨_, hbase, _, hstat, hidx, hrel, t0, htgt, _⟩ :=
      processMatch_ok_shape w conf i f vars g1 v2 h1
    cases k with
    | zero =>
      refine ⟨hstat, by simpa using hidx, ?_, t0, htgt⟩
      rw [show ((g1 :: out2).get ⟨0, hk⟩) = g1 from rfl, hrel, hbase]
    | succ k' =>
      have hk' : k' < out2.length := by simpa using hk
      have := ih (i + 1) v2 out2 h3 k' hk'
      refine ⟨this.1, ?_, this.2.2.1, this.2.2.2⟩
      rw [show ((g1 :: out2).get ⟨k' + 1, hk⟩) = out2.get ⟨k', hk'⟩ from rfl]
      rw [this.2.1]
      omega

/-- Claim C8: after every successful link pass, every file of the batch has
its status set to OK, its index set to its position in the processed batch,
its relative target path equal to the join of its base directory and its
target, and its recorded target is the trimmed, path-cleaned value of the
name the pass computed. -/
theorem replaceMatches_output_invariants (w : World) (conf : Config)
    (ms out : List FileChange)
    (hok : replaceMatches w conf ms = .ok out) :
    ∀ k (hk : k < out.length),
      (out.get ⟨k, hk⟩).status = .ok ∧
      (out.get ⟨k, hk⟩).index = k ∧
      (out.get ⟨k, hk⟩).relTargetPath =
        goJoin (out.get ⟨k, hk⟩).baseDir (out.get ⟨k, hk⟩).target ∧
      ∃ t0, (out.get ⟨k, hk⟩).target = trimSpace (goClean t0) := by
  simp only [replaceMatches, GoOutcome.seqBind_eq] at hok
  obtain ⟨vars, _, hloop⟩ := GoOutcome.bind_eq_ok hok
  intro k hk
  have := replaceMatchesLoop_ok_invariants w conf _ 0 vars out hloop k hk
  exact ⟨this.1, by simpa using this.2.1, this.2.2⟩

/-- The concrete successful output batch used by the claim C8 witness. -/
def outInv : List FileChange :=
  [{ source := gs "a.txt", target := gs "b.txt",
     relTargetPath := gs "b.txt", status := .ok, index := 0 }]

/-- Witness for claim C8 at a concrete one-file batch, at position 0. -/
theorem replaceMatches_output_invariants_witness :
    (outInv.get ⟨0, by decide⟩).status = .ok ∧
    (outInv.get ⟨0, by decide⟩).index = 0 ∧
    (outInv.get ⟨0, by decide⟩).relTargetPath =
      goJoin (outInv.get ⟨0, by decide⟩).baseDir
        (outInv.get ⟨0, by decide⟩).target ∧
    ∃ t0, (outInv.get ⟨0, by decide⟩).target = trimSpace (goClean t0) :=
  replaceMatches_output_invariants trivWorld confC6b
    [{ source := gs "a.txt" }] outInv (by decide) 0 (by decide)

theorem replaceVariables_empty (w : World) (conf : Config) (change : FileChange) :
    replaceVariables w conf change {} = .ok (change.target, {}) := rfl

theorem processMatch_identity (w : World) (conf : Config) (i : Nat)
    (change : FileChange)
    (hid : ∀ s, replaceString conf s = s)
    (hfix : trimSpace (goClean change.source) = change.source) :
    processMatch w conf i change {} =
      .ok ({ change with index := i,
                         target := change.source,
                         status := .ok,
                         relTargetPath := goJoin change.baseDir change.source },
           {}) := by
  unfold processMatch
  simp only [replaceVariables_empty, GoOutcome.seqBind_eq, GoOutcome.bind_ok,
    GoOutcome.pure_eq]
  by_cases hP : conf.ignoreExt = true ∧ ¬ change.isDir = true
  · simp only [if_pos hP]
    rw [hid, stripExtension_append_ext, hfix]
  · simp only [if_neg hP]
    rw [hid, hfix]

theorem replaceMatchesLoop_identity (w : World) (conf : Config)
    (hid : ∀ s, replaceString conf s = s) :
    ∀ (l : List FileChange) (i : Nat),
      (∀ f ∈ l, trimSpace (goClean f.source) = f.source) →
      ∃ out, replaceMatchesLoop w conf i {} l = .ok out ∧
        ∀ g ∈ out, g.target = g.source := by
  intro l
  induction l with
  | nil =>
    intro i _
    exact ⟨[], rfl, by simp⟩
  | cons f rest ih =>
    intro i hall
    obtain ⟨out2, hout2, hprop⟩ := ih (i + 1) (fun f hf => hall f (by simp [hf]))
    refine ⟨{ f with index := i,
                     target := f.source,
                     status := .ok,
                     relTargetPath := goJoin f.baseDir f.source } :: out2, ?_, ?_⟩
    · simp only [replaceMatchesLoop, GoOutcome.seqBind_eq,
        processMatch_identity w conf i f hid (hall f (by simp)),
        GoOutcome.bind_ok, hout2, GoOutcome.pure_eq]
    · intro g hg
      rcases List.mem_cons.1 hg with hg1 | hg2
      · subst hg1; rfl
      · exact hprop g hg2

/-- Claim C7 (amended): a single-link chain whose search pattern and
replacement change no name, and whose template contains no variable tokens,
leaves every file's target equal to its source — provided every source is
already trimmed and path-normalized (`TrimSpace(Clean(s)) = s`); the
counterexample shows the claim fails without that proviso, since the code
always records the trimmed, cleaned value. -/
theorem chain_identity (w : World) (conf : Config) (ms : List FileChange)
    (v : GoStr)
    (hslice : conf.replacementSlice = [v])
    (hvars : extractVariables w v = .ok {})
    (hid : ∀ s, replaceString { conf with replacement := v } s = s)
    (hfix : ∀ f ∈ ms, trimSpace (goClean f.source) = f.source) :
    ∃ out, handleReplacementChain w conf ms = .ok out ∧
      ∀ g ∈ out, g.target = g.source := by
  obtain ⟨out, hout, hprop⟩ :=
    replaceMatchesLoop_identity w { conf with replacement := v } hid ms 0 hfix
  refine ⟨out, ?_, hprop⟩
  unfold handleReplacementChain
  conv_lhs => rw [hslice]
  show chainLoop w 1 [(0, v)] conf ms = _
  simp only [chainLoop]
  have hrm : replaceMatches w { conf with replacement := v } ms = .ok out := by
    unfold replaceMatches
    simp only [hvars, GoOutcome.seqBind_eq, GoOutcome.bind_ok]
    rw [if_neg (by simp)]
    exact hout
  simp only [hrm, GoOutcome.seqBind_eq, GoOutcome.bind_ok, GoOutcome.pure_eq]
  simp

def confC7I : Config where
  searchRegex := noMatchRegex
  replacement := []
  replaceLimit := 0
  ignoreExt := false
  replacementSlice := [gs "r"]
  findStringRegex := fun _ => .err .findErr

/-- Witness for claim C7: a single-link chain whose pattern matches nothing
over an already-normalized source leaves the target equal to the source. -/
theorem chain_identity_witness :
    ∃ out, handleReplacementChain trivWorld confC7I [{ source := gs "ab" }] = .ok out ∧
      ∀ g ∈ out, g.target = g.source :=
  chain_identity trivWorld confC7I [{ source := gs "ab" }] (gs "r") rfl rfl
    (fun s => by
      simp [replaceString, regexReplace, confC7I, noMatchRegex,
        GoRegex.replaceAllString, joinSegs])
    (by decide)

/-- Counterexample to claim C7 as stated: the source `"a "` (with a trailing
space) is left unchanged by the search pattern and replacement, yet its
recorded target is the trimmed value `"a"`, different from the source. -/
theorem identity_replacement_target_differs :
    handleReplacementChain trivWorld confC7 [{ source := gs "a " }] =
      .ok [{ source := gs "a ", target := gs "a", relTargetPath := gs "a",
             status := .ok, index := 0 }] ∧
    replaceString { confC7 with replacement := gs "r" } (gs "a ") = gs "a " ∧
    gs "a" ≠ gs "a " :=
  ⟨by decide, by decide, by decide⟩

/-- Claim C10: for a batch entry whose directory flag is set, the
extension-preserving flag has no effect on the per-file processing — the
entry's name is never extension-stripped before the regex replacement and no
extension is reattached afterwards, so processing with the flag on equals
processing with it off and any dot-suffix is handled as part of the name by
the search pattern. -/
theorem processMatch_dir_ignores_ext (w : World) (conf : Config) (i : Nat)
    (change : FileChange) (vars : Variables) (b1 b2 : Bool)
    (hdir : change.isDir = true) :
    processMatch w { conf with ignoreExt := b1 } i change vars =
      processMatch w { conf with ignoreExt := b2 } i change vars := by
  unfold processMatch
  have hc1 : ¬ (({ conf with ignoreExt := b1 } : Config).ignoreExt = true ∧
      ¬ change.isDir = true) := by simp [hdir]
  have hc2 : ¬ (({ conf with ignoreExt := b2 } : Config).ignoreExt = true ∧
      ¬ change.isDir = true) := by simp [hdir]
  simp only [if_neg hc1, if_neg hc2, replaceString]
  rfl

/-- Witness for claim C10 at a concrete directory entry with a dot-suffix in
its name. -/
theorem processMatch_dir_ignores_ext_witness :
    processMatch trivWorld { confC6b with ignoreExt := true } 0
        { source := gs "d.ext", isDir := true } {} =
      processMatch trivWorld { confC6b with ignoreExt := false } 0
        { source := gs "d.ext", isDir := true } {} :=
  processMatch_dir_ignores_ext trivWorld confC6b 0
    { source := gs "d.ext", isDir := true } {} true false rfl

theorem splitOnChar_pair (c : Char) (sa sb : GoStr) (hsb : ∀ x ∈ sb, x ≠ c) :
    (∀ x ∈ sa, x ≠ c) → splitOnChar c (sa ++ c :: sb) = [sa, sb] := by
  induction sa with
  | nil =>
    intro _
    simp [splitOnChar, splitOnChar_no_sep c sb hsb]
  | cons x sa' ih =>
    intro hsa
    have hx : x ≠ c := hsa x (by simp)
    simp only [List.cons_append, splitOnChar, if_neg hx,
      ih (fun y hy => hsa y (by simp [hy])), List.append_eq]

theorem skipRangesLoop_pair (sa sb : GoStr) (na nb : Int)
    (hsa : ∀ x ∈ sa, x ≠ '-') (hsb : ∀ x ∈ sb, x ≠ '-')
    (ha : goAtoi sa = .ok na) (hb : goAtoi sb = .ok nb) :
    skipRangesLoop [sa ++ '-' :: sb] =
      .ok [{ max := max na nb, min := min na nb }] := by
  have hcon : (sa ++ '-' :: sb).contains '-' = true := by simp
  simp only [skipRangesLoop, hcon, if_true, splitOnChar_pair '-' sa sb hsb hsa]
  simp only [idx, List.get?, ha, hb, GoOutcome.seqBind_eq, GoOutcome.bind_ok,
    GoOutcome.pure_eq, skipRangesLoop]

theorem skipRangesLoop_single (sv : GoStr) (n : Int)
    (hsv : ∀ x ∈ sv, x ≠ '-') (h : goAtoi sv = .ok n) :
    skipRangesLoop [sv] = .ok [{ max := n, min := n }] := by
  have hnot : '-' ∉ sv := fun hm => hsv '-' hm rfl
  have hcon : sv.contains '-' = false := by simpa using hnot
  simp only [skipRangesLoop, hcon, Bool.false_eq_true, if_false, h,
    GoOutcome.seqBind_eq, GoOutcome.bind_ok, GoOutcome.pure_eq, skipRangesLoop]

/-- The index-variable record extracted from a single full submatch whose
optional fields are all empty except the skip specifier. -/
def expectedIdxVars (r : GoRegex) (sub : List GoStr) (m3 m5 : GoStr)
    (sk : List numbersToSkip) : indexVars where
  capturVarIndex := []
  offset := [0]
  matchList := [{ regex := r
                  submatch := sub
                  startNumber := 1
                  indexFormat := m3
                  numberSystem := m5
                  step := {}
                  skip := sk }]

theorem getIndexingVars_of_skip (w : World) (t w0 m3 m4 m5 sk : GoStr)
    (r : GoRegex) (ranges : List numbersToSkip)
    (hf : w.indexVarRegex.findAllSubmatch t = [[w0, [], [], m3, m4, m5, [], sk]])
    (hcomp : w.compile w0 = .ok r)
    (hsk : parseSkipRanges sk = .ok ranges) :
    getIndexingVars w t =
      .ok (expectedIdxVars r [w0, [], [], m3, m4, m5, [], sk] m3 m5 ranges) := by
  simp only [getIndexingVars, hf]
  rw [if_neg (by simp)]
  simp only [indexVarsLoop]
  rw [if_neg (by simp)]
  simp only [idx, List.get?, hcomp, GoOutcome.seqBind_eq, GoOutcome.bind_ok,
    GoOutcome.pure_eq]
  rw [if_neg (by simp : ¬(([] : GoStr) ≠ []))]
  rw [if_neg (by simp : ¬(([] : GoStr) ≠ []))]
  simp only [hsk, GoOutcome.bind_ok, GoOutcome.pure_eq]
  rfl

/-- Claim C9: when an index token's skip specifier is a dash-separated range,
the index lexicon accepts it and normalizes it so that the stored range has
`min` equal to the smaller bound and `max` equal to the larger bound (in
particular for a first bound greater than the second, such as `7-3`), and a
single number `n` is stored as the degenerate range with `min = max = n`. -/
theorem index_skip_normalization (w : World) (t w0 m3 m4 m5 : GoStr)
    (r : GoRegex) (sa sb sv : GoStr) (na nb n : Int)
    (hcomp : w.compile w0 = .ok r) :
    ((w.indexVarRegex.findAllSubmatch t =
        [[w0, [], [], m3, m4, m5, [], sa ++ '-' :: sb]]) →
      (∀ x ∈ sa, x ≠ '-' ∧ x ≠ ';') → (∀ x ∈ sb, x ≠ '-' ∧ x ≠ ';') →
      goAtoi sa = .ok na → goAtoi sb = .ok nb →
      getIndexingVars w t =
        .ok (expectedIdxVars r [w0, [], [], m3, m4, m5, [], sa ++ '-' :: sb]
          m3 m5 [{ max := max na nb, min := min na nb }])) ∧
    ((w.indexVarRegex.findAllSubmatch t = [[w0, [], [], m3, m4, m5, [], sv]]) →
      sv ≠ [] → (∀ x ∈ sv, x ≠ '-' ∧ x ≠ ';') →
      goAtoi sv = .ok n →
      getIndexingVars w t =
        .ok (expectedIdxVars r [w0, [], [], m3, m4, m5, [], sv]
          m3 m5 [{ max := n, min := n }])) := by
  constructor
  · intro hf hsa hsb ha hb
    refine getIndexingVars_of_skip w t w0 m3 m4 m5 _ r _ hf hcomp ?_
    unfold parseSkipRanges
    rw [if_pos (by simp : (sa ++ '-' :: sb) ≠ [])]
    have hsemi : ∀ x ∈ sa ++ '-' :: sb, x ≠ ';' := by
      intro x hx
      rcases List.mem_append.1 hx with h | h
      · exact (hsa x h).2
      · rcases List.mem_cons.1 h with h1 | h1
        · subst h1; decide
        · exact (hsb x h1).2
    rw [splitOnChar_no_sep ';' _ hsemi]
    exact skipRangesLoop_pair sa sb na nb (fun x hx => (hsa x hx).1)
      (fun x hx => (hsb x hx).1) ha hb
  · intro hf hne hsv hn
    refine getIndexingVars_of_skip w t w0 m3 m4 m5 _ r _ hf hcomp ?_
    unfold parseSkipRanges
    rw [if_pos hne]
    rw [splitOnChar_no_sep ';' _ (fun x hx => (hsv x hx).2)]
    exact skipRangesLoop_single sv n (fun x hx => (hsv x hx).1) hn

/-- A world whose index lexicon yields a full submatch with the skip
specifier `7-3` for the template `A` and `5` for the template `B`. -/
def wC9 : World :=
  { trivWorld with
      indexVarRegex :=
        { matchString := fun _ => true
          findAllSubmatch := fun t =>
            if t = gs "A" then [[gs "x", [], [], [], [], [], [], gs "7-3"]]
            else if t = gs "B" then [[gs "x", [], [], [], [], [], [], gs "5"]]
            else [] } }

/-- Witness for claim C9: the reversed range `7-3` is stored as
`{min 3, max 7}`, and the single number `5` as `{min 5, max 5}`. -/
theorem index_skip_normalization_witness :
    getIndexingVars wC9 (gs "A") =
      .ok (expectedIdxVars noMatchRegex [gs "x", [], [], [], [], [], [], gs "7-3"]
        [] [] [{ max := max 7 3, min := min 7 3 }]) ∧
    getIndexingVars wC9 (gs "B") =
      .ok (expectedIdxVars noMatchRegex [gs "x", [], [], [], [], [], [], gs "5"]
        [] [] [{ max := 5, min := 5 }]) := by
  constructor
  · exact (index_skip_normalization wC9 (gs "A") (gs "x") [] [] []
      noMatchRegex (gs "7") (gs "3") [] 7 3 0 rfl).1 rfl (by decide) (by decide)
      (by decide) (by decide)
  · exact (index_skip_normalization wC9 (gs "B") (gs "x") [] [] []
      noMatchRegex [] [] (gs "5") 0 0 5 rfl).2 rfl (by decide) (by decide)
      (by decide)
